import Mathlib

/-!
Verification of the structured-document recovery and correction-merge
subsystem of the Schar-Mitzvah OCR pipeline.

The development shallowly embeds:
* the `Document` tree (`Json` below): string / integer number / boolean /
  null / sequence / mapping, the value produced by parsing the interchange
  format;
* the recursive fragment-replacement functions
  `apply_text_replacement_recursive` (apply_claude_corrections.py) and
  `_replace_in_obj` (apply_gemini_corrections.py);
* the per-page merge drivers `process_page` of both correction scripts;
* the recovery engine `extract_json_robust` (archive/scripts/retry_failed.py)
  and `extract_json_from_response` (archive/scripts/extract.py), together
  with a model of the interchange-format reader and writer (Python
  `json.loads` / `json.dumps`);
* the batch orchestration of archive/scripts/extract.py `main` and the
  retry pass of archive/scripts/retry_failed.py `main`, and the retry loop
  of `call_gemini`.

Numbers are modelled as integers (the spec only requires "number"; no
claim depends on float semantics).  Machine-level resource limits
(Python's recursion limit) are outside the model.
-/

/-- The Document tree: the recursive value produced by parsing the
interchange format.  Mapping entries keep insertion order, as Python
dicts do. -/
inductive Json where
  | null : Json
  | bool (b : Bool) : Json
  | num (n : Int) : Json
  | str (s : String) : Json
  | arr (items : List Json) : Json
  | obj (members : List (String × Json)) : Json

/-! Structural equality test on Documents, modelling Python `==` on parsed
JSON values (used by apply_claude_corrections.py for `corrected_json != "null"`). -/

mutual

def jeq : Json → Json → Bool
  | .null, .null => true
  | .bool a, .bool b => a = b
  | .num a, .num b => a = b
  | .str a, .str b => a = b
  | .arr a, .arr b => jeqList a b
  | .obj a, .obj b => jeqPairs a b
  | _, _ => false

def jeqList : List Json → List Json → Bool
  | [], [] => true
  | a :: as, b :: bs => jeq a b && jeqList as bs
  | _, _ => false

def jeqPairs : List (String × Json) → List (String × Json) → Bool
  | [], [] => true
  | (ka, va) :: as, (kb, vb) :: bs => ka = kb && jeq va vb && jeqPairs as bs
  | _, _ => false

end

/-- Python truthiness of a parsed JSON value (`bool(x)`): empty string,
empty sequence, empty mapping, zero, `False` and `None` are falsy. -/
def truthy : Json → Bool
  | .null => false
  | .bool b => b
  | .num n => n != 0
  | .str s => s ≠ ""
  | .arr items => !items.isEmpty
  | .obj members => !members.isEmpty

def truthyOpt : Option Json → Bool
  | none => false
  | some d => truthy d

/-! ### Character and string helpers (models of the Python string operations) -/

def lbrace : Char := Char.ofNat 123
def rbrace : Char := Char.ofNat 125

/-- `a.isPrefixOf b` for char lists, written out so the proofs can unfold it. -/
def isPrefList : List Char → List Char → Bool
  | [], _ => true
  | _ :: _, [] => false
  | a :: as, b :: bs => a = b && isPrefList as bs

/-- Leftmost index `i ≥ start` at which `pat` occurs in `l`
(model of Python `str.find` / `str.index` with a start argument). -/
def subIndexFrom (l pat : List Char) (start : Nat) : Option Nat :=
  (List.range (l.length + 1)).find? fun i => decide (start ≤ i) && isPrefList pat (l.drop i)

/-- Python `pat in s` on strings. -/
def containsSub (l pat : List Char) : Bool :=
  (subIndexFrom l pat 0).isSome

/-- Auxiliary loop of Python `str.replace`: replace every non-overlapping
occurrence of `p0 :: ps`, scanning left to right.  The `fuel` argument only
bounds the recursion; every step shortens the list, so fuel equal to the
list length never runs out. -/
def pyReplaceAux (p0 : Char) (ps c : List Char) : Nat → List Char → List Char
  | _, [] => []
  | 0, l => l
  | fuel + 1, x :: xs =>
    if isPrefList (p0 :: ps) (x :: xs) then c ++ pyReplaceAux p0 ps c fuel (xs.drop ps.length)
    else x :: pyReplaceAux p0 ps c fuel xs

/-- Python `s.replace(pat, rep)`.  With an empty pattern Python inserts the
replacement before every character and at the end. -/
def pyReplace (s pat rep : String) : String :=
  match pat.data with
  | [] => String.mk (rep.data ++ s.data.flatMap (fun ch => ch :: rep.data))
  | p0 :: ps => String.mk (pyReplaceAux p0 ps rep.data s.data.length s.data)

/-- Python substring test `pat in s` on `String`. -/
def strContains (s pat : String) : Bool := containsSub s.data pat.data

/-! ### Fragment replacement (apply_claude_corrections.py, lines 45-64)

`apply_text_replacement_recursive(obj, original_text, corrected_text)`
recursively walks a parsed JSON object; in every mapping it replaces the
substring in string *values* (counting one per changed leaf) and recurses
into mapping/sequence values; in every sequence likewise for its elements.
A top-level value that is not a mapping or sequence is left untouched. -/

mutual

def apply_text_replacement_recursive (obj : Json) (original_text corrected_text : String) :
    Json × Nat :=
  match obj with
  | .obj members =>
    let r := claudeReplacePairs members original_text corrected_text
    (.obj r.1, r.2)
  | .arr items =>
    let r := claudeReplaceItems items original_text corrected_text
    (.arr r.1, r.2)
  | v => (v, 0)

def claudeReplacePairs (ms : List (String × Json)) (o c : String) :
    List (String × Json) × Nat :=
  match ms with
  | [] => ([], 0)
  | (k, Json.str s) :: rest =>
    let r := claudeReplacePairs rest o c
    if strContains s o then ((k, Json.str (pyReplace s o c)) :: r.1, 1 + r.2)
    else ((k, Json.str s) :: r.1, r.2)
  | (k, Json.obj m2) :: rest =>
    let rv := apply_text_replacement_recursive (Json.obj m2) o c
    let r := claudeReplacePairs rest o c
    ((k, rv.1) :: r.1, rv.2 + r.2)
  | (k, Json.arr a2) :: rest =>
    let rv := apply_text_replacement_recursive (Json.arr a2) o c
    let r := claudeReplacePairs rest o c
    ((k, rv.1) :: r.1, rv.2 + r.2)
  | (k, v) :: rest =>
    let r := claudeReplacePairs rest o c
    ((k, v) :: r.1, r.2)

def claudeReplaceItems (xs : List Json) (o c : String) : List Json × Nat :=
  match xs with
  | [] => ([], 0)
  | Json.str s :: rest =>
    let r := claudeReplaceItems rest o c
    if strContains s o then (Json.str (pyReplace s o c) :: r.1, 1 + r.2)
    else (Json.str s :: r.1, r.2)
  | Json.obj m2 :: rest =>
    let rv := apply_text_replacement_recursive (Json.obj m2) o c
    let r := claudeReplaceItems rest o c
    (rv.1 :: r.1, rv.2 + r.2)
  | Json.arr a2 :: rest =>
    let rv := apply_text_replacement_recursive (Json.arr a2) o c
    let r := claudeReplaceItems rest o c
    (rv.1 :: r.1, rv.2 + r.2)
  | v :: rest =>
    let r := claudeReplaceItems rest o c
    (v :: r.1, r.2)

end

/-! ### Fragment replacement (apply_gemini_corrections.py, lines 58-75)

`_replace_in_obj(obj, original, corrected)` — the same recursive walk,
written independently in the second script. -/

mutual

def replace_in_obj (obj : Json) (original corrected : String) : Json × Nat :=
  match obj with
  | .obj members =>
    let r := geminiReplacePairs members original corrected
    (.obj r.1, r.2)
  | .arr items =>
    let r := geminiReplaceItems items original corrected
    (.arr r.1, r.2)
  | v => (v, 0)

def geminiReplacePairs (ms : List (String × Json)) (o c : String) :
    List (String × Json) × Nat :=
  match ms with
  | [] => ([], 0)
  | (k, Json.str s) :: rest =>
    let r := geminiReplacePairs rest o c
    if strContains s o then ((k, Json.str (pyReplace s o c)) :: r.1, 1 + r.2)
    else ((k, Json.str s) :: r.1, r.2)
  | (k, Json.obj m2) :: rest =>
    let rv := replace_in_obj (Json.obj m2) o c
    let r := geminiReplacePairs rest o c
    ((k, rv.1) :: r.1, rv.2 + r.2)
  | (k, Json.arr a2) :: rest =>
    let rv := replace_in_obj (Json.arr a2) o c
    let r := geminiReplacePairs rest o c
    ((k, rv.1) :: r.1, rv.2 + r.2)
  | (k, v) :: rest =>
    let r := geminiReplacePairs rest o c
    ((k, v) :: r.1, r.2)

def geminiReplaceItems (xs : List Json) (o c : String) : List Json × Nat :=
  match xs with
  | [] => ([], 0)
  | Json.str s :: rest =>
    let r := geminiReplaceItems rest o c
    if strContains s o then (Json.str (pyReplace s o c) :: r.1, 1 + r.2)
    else (Json.str s :: r.1, r.2)
  | Json.obj m2 :: rest =>
    let rv := replace_in_obj (Json.obj m2) o c
    let r := geminiReplaceItems rest o c
    (rv.1 :: r.1, rv.2 + r.2)
  | Json.arr a2 :: rest =>
    let rv := replace_in_obj (Json.arr a2) o c
    let r := geminiReplaceItems rest o c
    (rv.1 :: r.1, rv.2 + r.2)
  | v :: rest =>
    let r := geminiReplaceItems rest o c
    (v :: r.1, r.2)

end

/-! ### Tree shape

`structureOf` erases only the content of string leaves; everything else —
mapping keys and their order, sequence lengths, numbers, booleans, nulls —
is retained.  Two Documents have the same `structureOf` image exactly when
they differ at most in the content of string leaves. -/

inductive JShape where
  | null : JShape
  | bool (b : Bool) : JShape
  | num (n : Int) : JShape
  | str : JShape
  | arr (items : List JShape) : JShape
  | obj (members : List (String × JShape)) : JShape

mutual

def structureOf : Json → JShape
  | .null => .null
  | .bool b => .bool b
  | .num n => .num n
  | .str _ => .str
  | .arr items => .arr (structureOfList items)
  | .obj members => .obj (structureOfPairs members)

def structureOfList : List Json → List JShape
  | [] => []
  | x :: xs => structureOf x :: structureOfList xs

def structureOfPairs : List (String × Json) → List (String × JShape)
  | [] => []
  | (k, v) :: ms => (k, structureOf v) :: structureOfPairs ms

end

/-! All mapping keys occurring anywhere in a Document, depth first. -/

mutual

def allKeys : Json → List String
  | .null | .bool _ | .num _ | .str _ => []
  | .arr items => allKeysList items
  | .obj members => allKeysPairs members

def allKeysList : List Json → List String
  | [] => []
  | x :: xs => allKeys x ++ allKeysList xs

def allKeysPairs : List (String × Json) → List String
  | [] => []
  | (k, v) :: ms => k :: (allKeys v ++ allKeysPairs ms)

end

/-! ### Correction directives and the per-page merge drivers

A fragment directive ("issue") from a QA file.  The classification fields
(`itype` — the JSON key is `type` —, `severity`, `location`) are free text
used only for reporting.  `Option` models a possibly-missing key. -/

structure Issue where
  original_text : Option String
  corrected_text : Option String
  itype : Option String
  severity : Option String
  location : Option String

/-- An entry of `corrections_applied` in apply_claude_corrections.py
`process_page`: either the string "Full corrected_json replacement" or an
issue-level record with its replacement count. -/
inductive ClaudeRec where
  | fullReplacement : ClaudeRec
  | fragRec (itype severity location original corrected : String) (count : Nat) : ClaudeRec

/-- The issue loop of apply_claude_corrections.py `process_page`
(lines 107-122): each issue with non-empty, distinct `original_text` and
`corrected_text` is applied with `apply_text_replacement_recursive`; a
record is appended only when at least one string leaf changed. -/
def claude_apply_issues_go (st : Json × List ClaudeRec) : List Issue → Json × List ClaudeRec
  | [] => st
  | issue :: rest =>
    let o := issue.original_text.getD ""
    let c := issue.corrected_text.getD ""
    if o ≠ "" ∧ c ≠ "" ∧ o ≠ c then
      let r := apply_text_replacement_recursive st.1 o c
      let st' :=
        if r.2 > 0 then
          (r.1, st.2 ++ [ClaudeRec.fragRec (issue.itype.getD "unknown") (issue.severity.getD "unknown")
            (issue.location.getD "") o c r.2])
        else (r.1, st.2)
      claude_apply_issues_go st' rest
    else claude_apply_issues_go st rest

def claude_apply_issues (parsed_json : Json) (issues : List Issue) : Json × List ClaudeRec :=
  claude_apply_issues_go (parsed_json, []) issues

/-- The QA input of apply_claude_corrections.py: `corrected_json` is `none`
when the key is absent or holds JSON null (Python `.get` cannot tell the
two apart).  The `overall_quality`/`summary` pass-through fields carry no
merge semantics and are omitted. -/
structure ClaudeQa where
  corrected_json : Option Json
  issues : List Issue

/-- apply_claude_corrections.py `process_page` (lines 82-124), merge part:
with no QA file the original document is saved unchanged; with a
`corrected_json` that is not the literal string "null" the replacement is
saved outright with a single full-replacement record; otherwise the issue
loop runs. -/
def claude_process_page (ocr_parsed : Option Json) (qa : Option ClaudeQa) :
    Json × List ClaudeRec :=
  let parsed_json := ocr_parsed.getD (Json.obj [])
  match qa with
  | none => (parsed_json, [])
  | some qa =>
    match qa.corrected_json with
    | some cj =>
      if jeq cj (Json.str "null") then claude_apply_issues parsed_json qa.issues
      else (cj, [ClaudeRec.fullReplacement])
    | none => claude_apply_issues parsed_json qa.issues

/-- An entry of `corrections_applied` in apply_gemini_corrections.py
`apply_text_corrections`. -/
structure GeminiCorrection where
  original : String
  corrected : String
  count : Nat

/-- The issue loop of apply_gemini_corrections.py `apply_text_corrections`
(lines 35-55): an issue with a missing or empty `original_text` or
`corrected_text`, or with the two equal, is skipped (`continue`); otherwise
`_replace_in_obj` is applied and a record appended when the count is
positive. -/
def apply_text_corrections_go (st : Json × List GeminiCorrection) :
    List Issue → Json × List GeminiCorrection
  | [] => st
  | issue :: rest =>
    match issue.original_text, issue.corrected_text with
    | some o, some c =>
      if o = "" ∨ c = "" ∨ o = c then apply_text_corrections_go st rest
      else
        let r := replace_in_obj st.1 o c
        let st' := if r.2 > 0 then (r.1, st.2 ++ [⟨o, c, r.2⟩]) else (r.1, st.2)
        apply_text_corrections_go st' rest
    | _, _ => apply_text_corrections_go st rest

def apply_text_corrections (parsed_json : Json) (issues : List Issue) :
    Json × List GeminiCorrection :=
  apply_text_corrections_go (parsed_json, []) issues

/-- An entry of the `corrections` list returned by
apply_gemini_corrections.py `process_page`: in the `corrected_json` branch
the issues are merely listed as (original, corrected) pairs; in the
text-replacement branch the applied records carry a count. -/
inductive GemRec where
  | listed (original corrected : String) : GemRec
  | applied (original corrected : String) (count : Nat) : GemRec

/-- The QA input of apply_gemini_corrections.py (its `parsed_qa` value);
pass-through reporting fields omitted as above. -/
structure GemQa where
  corrected_json : Option Json
  issues : List Issue

structure GemPageOut where
  saved : Json
  modified : Bool
  method : String
  corrections : List GemRec

/-- apply_gemini_corrections.py `process_page` (lines 78-163), merge part:
no parsed OCR ⇒ `{}` is saved; no parsed QA ⇒ the original is saved; a
*truthy* `corrected_json` is saved outright; otherwise a non-empty issue
list is applied via `apply_text_corrections`; otherwise the original is
saved. -/
def gemini_process_page (ocr_parsed : Option Json) (parsed_qa : Option GemQa) : GemPageOut :=
  match ocr_parsed with
  | none => ⟨Json.obj [], false, "no_parsed_json", []⟩
  | some parsed_json =>
    match parsed_qa with
    | none => ⟨parsed_json, false, "qa_parse_failed", []⟩
    | some qa =>
      if truthyOpt qa.corrected_json then
        ⟨qa.corrected_json.getD Json.null, true, "corrected_json",
          (qa.issues.filter fun i =>
              decide (i.original_text.getD "" ≠ "") && decide (i.corrected_text.getD "" ≠ "")).map
            fun i => GemRec.listed (i.original_text.getD "") (i.corrected_text.getD "")⟩
      else if !qa.issues.isEmpty then
        let rc := apply_text_corrections parsed_json qa.issues
        let modified := !rc.2.isEmpty
        ⟨rc.1, modified, if modified then "text_replacement" else "no_applicable_corrections",
          rc.2.map fun g => GemRec.applied g.original g.corrected g.count⟩
      else ⟨parsed_json, false, "no_corrections_needed", []⟩

/-! ### Structure preservation of the recursive replacement -/

mutual

theorem structureOf_claude_replace : ∀ (j : Json) (o c : String),
    structureOf (apply_text_replacement_recursive j o c).1 = structureOf j
  | .null, _, _ => by simp [apply_text_replacement_recursive]
  | .bool _, _, _ => by simp [apply_text_replacement_recursive]
  | .num _, _, _ => by simp [apply_text_replacement_recursive]
  | .str _, _, _ => by simp [apply_text_replacement_recursive]
  | .arr items, o, c => by
      simp [apply_text_replacement_recursive, structureOf,
        structureOf_claude_replace_items items o c]
  | .obj members, o, c => by
      simp [apply_text_replacement_recursive, structureOf,
        structureOf_claude_replace_pairs members o c]

theorem structureOf_claude_replace_items : ∀ (xs : List Json) (o c : String),
    structureOfList (claudeReplaceItems xs o c).1 = structureOfList xs
  | [], _, _ => by simp [claudeReplaceItems]
  | Json.null :: rest, o, c => by
      simp [claudeReplaceItems, structureOfList, structureOf_claude_replace_items rest o c]
  | Json.bool b :: rest, o, c => by
      simp [claudeReplaceItems, structureOfList, structureOf_claude_replace_items rest o c]
  | Json.num n :: rest, o, c => by
      simp [claudeReplaceItems, structureOfList, structureOf_claude_replace_items rest o c]
  | Json.str s :: rest, o, c => by
      cases h : strContains s o <;>
        simp [claudeReplaceItems, h, structureOfList, structureOf,
          structureOf_claude_replace_items rest o c]
  | Json.arr a2 :: rest, o, c => by
      simp [claudeReplaceItems, structureOfList,
        structureOf_claude_replace (Json.arr a2) o c,
        structureOf_claude_replace_items rest o c]
  | Json.obj m2 :: rest, o, c => by
      simp [claudeReplaceItems, structureOfList,
        structureOf_claude_replace (Json.obj m2) o c,
        structureOf_claude_replace_items rest o c]

theorem structureOf_claude_replace_pairs : ∀ (ms : List (String × Json)) (o c : String),
    structureOfPairs (claudeReplacePairs ms o c).1 = structureOfPairs ms
  | [], _, _ => by simp [claudeReplacePairs]
  | (k, Json.null) :: rest, o, c => by
      simp [claudeReplacePairs, structureOfPairs, structureOf_claude_replace_pairs rest o c]
  | (k, Json.bool b) :: rest, o, c => by
      simp [claudeReplacePairs, structureOfPairs, structureOf_claude_replace_pairs rest o c]
  | (k, Json.num n) :: rest, o, c => by
      simp [claudeReplacePairs, structureOfPairs, structureOf_claude_replace_pairs rest o c]
  | (k, Json.str s) :: rest, o, c => by
      cases h : strContains s o <;>
        simp [claudeReplacePairs, h, structureOfPairs, structureOf,
          structureOf_claude_replace_pairs rest o c]
  | (k, Json.arr a2) :: rest, o, c => by
      simp [claudeReplacePairs, structureOfPairs,
        structureOf_claude_replace (Json.arr a2) o c,
        structureOf_claude_replace_pairs rest o c]
  | (k, Json.obj m2) :: rest, o, c => by
      simp [claudeReplacePairs, structureOfPairs,
        structureOf_claude_replace (Json.obj m2) o c,
        structureOf_claude_replace_pairs rest o c]

end

/-! The two scripts' replacement functions are the same function. -/

mutual

theorem replace_in_obj_eq : ∀ (j : Json) (o c : String),
    replace_in_obj j o c = apply_text_replacement_recursive j o c
  | .null, _, _ => by simp [replace_in_obj, apply_text_replacement_recursive]
  | .bool _, _, _ => by simp [replace_in_obj, apply_text_replacement_recursive]
  | .num _, _, _ => by simp [replace_in_obj, apply_text_replacement_recursive]
  | .str _, _, _ => by simp [replace_in_obj, apply_text_replacement_recursive]
  | .arr items, o, c => by
      simp [replace_in_obj, apply_text_replacement_recursive, geminiReplaceItems_eq items o c]
  | .obj members, o, c => by
      simp [replace_in_obj, apply_text_replacement_recursive, geminiReplacePairs_eq members o c]

theorem geminiReplaceItems_eq : ∀ (xs : List Json) (o c : String),
    geminiReplaceItems xs o c = claudeReplaceItems xs o c
  | [], _, _ => by simp [geminiReplaceItems, claudeReplaceItems]
  | Json.null :: rest, o, c => by
      simp [geminiReplaceItems, claudeReplaceItems, geminiReplaceItems_eq rest o c]
  | Json.bool b :: rest, o, c => by
      simp [geminiReplaceItems, claudeReplaceItems, geminiReplaceItems_eq rest o c]
  | Json.num n :: rest, o, c => by
      simp [geminiReplaceItems, claudeReplaceItems, geminiReplaceItems_eq rest o c]
  | Json.str s :: rest, o, c => by
      simp [geminiReplaceItems, claudeReplaceItems, geminiReplaceItems_eq rest o c]
  | Json.arr a2 :: rest, o, c => by
      simp [geminiReplaceItems, claudeReplaceItems,
        replace_in_obj_eq (Json.arr a2) o c, geminiReplaceItems_eq rest o c]
  | Json.obj m2 :: rest, o, c => by
      simp [geminiReplaceItems, claudeReplaceItems,
        replace_in_obj_eq (Json.obj m2) o c, geminiReplaceItems_eq rest o c]

theorem geminiReplacePairs_eq : ∀ (ms : List (String × Json)) (o c : String),
    geminiReplacePairs ms o c = claudeReplacePairs ms o c
  | [], _, _ => by simp [geminiReplacePairs, claudeReplacePairs]
  | (k, Json.null) :: rest, o, c => by
      simp [geminiReplacePairs, claudeReplacePairs, geminiReplacePairs_eq rest o c]
  | (k, Json.bool b) :: rest, o, c => by
      simp [geminiReplacePairs, claudeReplacePairs, geminiReplacePairs_eq rest o c]
  | (k, Json.num n) :: rest, o, c => by
      simp [geminiReplacePairs, claudeReplacePairs, geminiReplacePairs_eq rest o c]
  | (k, Json.str s) :: rest, o, c => by
      simp [geminiReplacePairs, claudeReplacePairs, geminiReplacePairs_eq rest o c]
  | (k, Json.arr a2) :: rest, o, c => by
      simp [geminiReplacePairs, claudeReplacePairs,
        replace_in_obj_eq (Json.arr a2) o c, geminiReplacePairs_eq rest o c]
  | (k, Json.obj m2) :: rest, o, c => by
      simp [geminiReplacePairs, claudeReplacePairs,
        replace_in_obj_eq (Json.obj m2) o c, geminiReplacePairs_eq rest o c]

end

theorem structureOf_gemini_replace (j : Json) (o c : String) :
    structureOf (replace_in_obj j o c).1 = structureOf j := by
  rw [replace_in_obj_eq]
  exact structureOf_claude_replace j o c

/-! Structure preservation lifts through both issue loops. -/

theorem claude_apply_issues_go_structure :
    ∀ (issues : List Issue) (st : Json × List ClaudeRec),
      structureOf (claude_apply_issues_go st issues).1 = structureOf st.1
  | [], st => rfl
  | issue :: rest, st => by
      simp only [claude_apply_issues_go]
      split
      · split <;>
          simpa [claude_apply_issues_go_structure rest] using
            structureOf_claude_replace st.1 _ _
      · exact claude_apply_issues_go_structure rest st

theorem apply_text_corrections_go_structure :
    ∀ (issues : List Issue) (st : Json × List GeminiCorrection),
      structureOf (apply_text_corrections_go st issues).1 = structureOf st.1
  | [], st => rfl
  | issue :: rest, st => by
      simp only [apply_text_corrections_go]
      split
      · split
        · exact apply_text_corrections_go_structure rest st
        · split <;>
            simpa [apply_text_corrections_go_structure rest] using
              structureOf_gemini_replace st.1 _ _
      · exact apply_text_corrections_go_structure rest st

/-! Key preservation: the recursive replacement never rewrites mapping keys. -/

mutual

theorem allKeys_claude_replace : ∀ (j : Json) (o c : String),
    allKeys (apply_text_replacement_recursive j o c).1 = allKeys j
  | .null, _, _ => by simp [apply_text_replacement_recursive]
  | .bool _, _, _ => by simp [apply_text_replacement_recursive]
  | .num _, _, _ => by simp [apply_text_replacement_recursive]
  | .str _, _, _ => by simp [apply_text_replacement_recursive]
  | .arr items, o, c => by
      simp [apply_text_replacement_recursive, allKeys, allKeys_claude_replace_items items o c]
  | .obj members, o, c => by
      simp [apply_text_replacement_recursive, allKeys, allKeys_claude_replace_pairs members o c]

theorem allKeys_claude_replace_items : ∀ (xs : List Json) (o c : String),
    allKeysList (claudeReplaceItems xs o c).1 = allKeysList xs
  | [], _, _ => by simp [claudeReplaceItems]
  | Json.null :: rest, o, c => by
      simp [claudeReplaceItems, allKeysList, allKeys_claude_replace_items rest o c]
  | Json.bool b :: rest, o, c => by
      simp [claudeReplaceItems, allKeysList, allKeys_claude_replace_items rest o c]
  | Json.num n :: rest, o, c => by
      simp [claudeReplaceItems, allKeysList, allKeys_claude_replace_items rest o c]
  | Json.str s :: rest, o, c => by
      cases h : strContains s o <;>
        simp [claudeReplaceItems, h, allKeysList, allKeys,
          allKeys_claude_replace_items rest o c]
  | Json.arr a2 :: rest, o, c => by
      simp [claudeReplaceItems, allKeysList,
        allKeys_claude_replace (Json.arr a2) o c, allKeys_claude_replace_items rest o c]
  | Json.obj m2 :: rest, o, c => by
      simp [claudeReplaceItems, allKeysList,
        allKeys_claude_replace (Json.obj m2) o c, allKeys_claude_replace_items rest o c]

theorem allKeys_claude_replace_pairs : ∀ (ms : List (String × Json)) (o c : String),
    allKeysPairs (claudeReplacePairs ms o c).1 = allKeysPairs ms
  | [], _, _ => by simp [claudeReplacePairs]
  | (k, Json.null) :: rest, o, c => by
      simp [claudeReplacePairs, allKeysPairs, allKeys_claude_replace_pairs rest o c]
  | (k, Json.bool b) :: rest, o, c => by
      simp [claudeReplacePairs, allKeysPairs, allKeys_claude_replace_pairs rest o c]
  | (k, Json.num n) :: rest, o, c => by
      simp [claudeReplacePairs, allKeysPairs, allKeys_claude_replace_pairs rest o c]
  | (k, Json.str s) :: rest, o, c => by
      cases h : strContains s o <;>
        simp [claudeReplacePairs, h, allKeysPairs, allKeys,
          allKeys_claude_replace_pairs rest o c]
  | (k, Json.arr a2) :: rest, o, c => by
      simp [claudeReplacePairs, allKeysPairs,
        allKeys_claude_replace (Json.arr a2) o c, allKeys_claude_replace_pairs rest o c]
  | (k, Json.obj m2) :: rest, o, c => by
      simp [claudeReplacePairs, allKeysPairs,
        allKeys_claude_replace (Json.obj m2) o c, allKeys_claude_replace_pairs rest o c]

end

/-- C1: For every base Document and every sequence of fragment directives,
fragment-mode merge preserves the document's tree structure at every depth:
the merged document of both correction scripts has the same `structureOf`
image as the base, i.e. every mapping keeps exactly its key list, every
sequence its length, every non-string leaf its value, and only the content
of string leaves may differ. -/
theorem C1_fragment_merge_preserves_structure (base : Json) (directives : List Issue) :
    structureOf (claude_apply_issues base directives).1 = structureOf base ∧
    structureOf (apply_text_corrections base directives).1 = structureOf base :=
  ⟨claude_apply_issues_go_structure directives (base, []),
   apply_text_corrections_go_structure directives (base, [])⟩

/-- C10: Fragment replacement visits only mapping values and sequence
elements, never mapping keys: in both scripts the recursively collected
key list of the output equals that of the base, for every directive —
in particular every key containing the directive's original text as a
substring survives verbatim. -/
theorem C10_fragment_replacement_never_touches_keys (base : Json) (original corrected : String) :
    allKeys (apply_text_replacement_recursive base original corrected).1 = allKeys base ∧
    allKeys (replace_in_obj base original corrected).1 = allKeys base := by
  refine ⟨allKeys_claude_replace base original corrected, ?_⟩
  rw [replace_in_obj_eq]
  exact allKeys_claude_replace base original corrected

/-- A fragment directive with a missing or empty `original`/`corrected`
field, or with the two equal (comparing the Python `.get` results with
their defaults, as both scripts do). -/
def degenerate_issue (i : Issue) : Bool :=
  (i.original_text.getD "" == "") || (i.corrected_text.getD "" == "") ||
    (i.original_text.getD "" == i.corrected_text.getD "")

theorem degenerate_issue_spec {i : Issue} (h : degenerate_issue i = true) :
    i.original_text.getD "" = "" ∨ i.corrected_text.getD "" = "" ∨
      i.original_text.getD "" = i.corrected_text.getD "" := by
  simp [degenerate_issue] at h
  tauto

theorem claude_go_skip_degenerate {d : Issue} (h : degenerate_issue d = true)
    (st : Json × List ClaudeRec) (post : List Issue) :
    claude_apply_issues_go st (d :: post) = claude_apply_issues_go st post := by
  have hd := degenerate_issue_spec h
  simp only [claude_apply_issues_go]
  rw [if_neg]
  tauto

theorem gemini_go_skip_degenerate {d : Issue} (h : degenerate_issue d = true)
    (st : Json × List GeminiCorrection) (post : List Issue) :
    apply_text_corrections_go st (d :: post) = apply_text_corrections_go st post := by
  have hd := degenerate_issue_spec h
  cases ho : d.original_text with
  | none => simp only [apply_text_corrections_go, ho]
  | some o =>
    cases hc : d.corrected_text with
    | none => simp only [apply_text_corrections_go, ho, hc]
    | some c =>
      rw [ho, hc] at hd
      simp only [Option.getD_some] at hd
      simp only [apply_text_corrections_go, ho, hc]
      rw [if_pos]
      tauto

theorem claude_go_insert_degenerate {d : Issue} (h : degenerate_issue d = true) :
    ∀ (pre post : List Issue) (st : Json × List ClaudeRec),
      claude_apply_issues_go st (pre ++ d :: post) = claude_apply_issues_go st (pre ++ post)
  | [], post, st => claude_go_skip_degenerate h st post
  | i :: pre, post, st => by
      simp only [List.cons_append, claude_apply_issues_go]
      split
      · exact claude_go_insert_degenerate h pre post _
      · exact claude_go_insert_degenerate h pre post st

theorem gemini_go_insert_degenerate {d : Issue} (h : degenerate_issue d = true) :
    ∀ (pre post : List Issue) (st : Json × List GeminiCorrection),
      apply_text_corrections_go st (pre ++ d :: post) = apply_text_corrections_go st (pre ++ post)
  | [], post, st => gemini_go_skip_degenerate h st post
  | i :: pre, post, st => by
      simp only [List.cons_append, apply_text_corrections_go]
      split
      · split
        · exact gemini_go_insert_degenerate h pre post st
        · exact gemini_go_insert_degenerate h pre post _
      · exact gemini_go_insert_degenerate h pre post st

/-- C8: In both correction scripts, a fragment directive whose original or
corrected field is missing or empty, or whose original equals its
corrected, is a no-op wherever it occurs in the directive list: the merge
result (document and change records alike) is the same as if the directive
were absent, so it is never applied, never counted, contributes no record,
and causes no error. -/
theorem C8_degenerate_directive_is_noop (base : Json) (pre post : List Issue) (d : Issue)
    (h : degenerate_issue d = true) :
    claude_apply_issues base (pre ++ d :: post) = claude_apply_issues base (pre ++ post) ∧
    apply_text_corrections base (pre ++ d :: post) = apply_text_corrections base (pre ++ post) :=
  ⟨claude_go_insert_degenerate h pre post (base, []),
   gemini_go_insert_degenerate h pre post (base, [])⟩

/-- Witness for C8 at a concrete input: the directive `cat → cat` between
two applicable directives changes nothing. -/
theorem C8_witness :
    degenerate_issue ⟨some "cat", some "cat", none, none, none⟩ = true ∧
    (claude_apply_issues (Json.obj [("text", Json.str "the cat sat")])
        ([⟨some "the", some "a", none, none, none⟩] ++
          ⟨some "cat", some "cat", none, none, none⟩ :: [⟨some "sat", some "ran", none, none, none⟩]) =
      claude_apply_issues (Json.obj [("text", Json.str "the cat sat")])
        ([⟨some "the", some "a", none, none, none⟩] ++ [⟨some "sat", some "ran", none, none, none⟩]) ∧
    apply_text_corrections (Json.obj [("text", Json.str "the cat sat")])
        ([⟨some "the", some "a", none, none, none⟩] ++
          ⟨some "cat", some "cat", none, none, none⟩ :: [⟨some "sat", some "ran", none, none, none⟩]) =
      apply_text_corrections (Json.obj [("text", Json.str "the cat sat")])
        ([⟨some "the", some "a", none, none, none⟩] ++ [⟨some "sat", some "ran", none, none, none⟩])) :=
  ⟨rfl, C8_degenerate_directive_is_noop (Json.obj [("text", Json.str "the cat sat")])
    [⟨some "the", some "a", none, none, none⟩] [⟨some "sat", some "ran", none, none, none⟩]
    ⟨some "cat", some "cat", none, none, none⟩ rfl⟩

/-- C5 counterexample: the Gemini script recognizes a full-replacement
document only when it is Python-truthy.  With the empty mapping `\x7b\x7d` as
replacement and one applicable fragment directive, the saved document is
the fragment-patched base, not the replacement — refuting the claim that a
carried replacement document always becomes the output with the fragments
unapplied. -/
theorem C5_counterexample :
    (gemini_process_page (some (Json.obj [("text", Json.str "the cat sat")]))
        (some ⟨some (Json.obj []), [⟨some "cat", some "dog", none, none, none⟩]⟩)).saved =
      Json.obj [("text", Json.str "the dog sat")] ∧
    (gemini_process_page (some (Json.obj [("text", Json.str "the cat sat")]))
        (some ⟨some (Json.obj []), [⟨some "cat", some "dog", none, none, none⟩]⟩)).saved ≠
      Json.obj [] := by
  constructor
  · rfl
  · intro hcontra
    rw [show (gemini_process_page (some (Json.obj [("text", Json.str "the cat sat")]))
        (some ⟨some (Json.obj []), [⟨some "cat", some "dog", none, none, none⟩]⟩)).saved =
      Json.obj [("text", Json.str "the dog sat")] from rfl] at hcontra
    exact List.noConfusion (Json.obj.inj hcontra)

/-- C5 amended: if the replacement document is one the code recognizes —
any value other than the literal string "null" in the Claude script, any
Python-truthy value in the Gemini script — then the merge output equals
the replacement exactly and the fragment directives are not applied;
the Claude script records this as a single full-replacement record. -/
theorem C5_full_replacement_amended (ocr : Option Json) (qa : ClaudeQa) (cj : Json)
    (hc : qa.corrected_json = some cj) (hn : jeq cj (Json.str "null") = false)
    (base : Json) (gqa : GemQa) (gcj : Json)
    (hg : gqa.corrected_json = some gcj) (ht : truthy gcj = true) :
    claude_process_page ocr (some qa) = (cj, [ClaudeRec.fullReplacement]) ∧
    (gemini_process_page (some base) (some gqa)).saved = gcj := by
  constructor
  · simp only [claude_process_page, hc, hn]
    rw [if_neg]
    simp [hn]
  · simp [gemini_process_page, hg, truthyOpt, ht]

/-- Witness for C5 amended at concrete inputs: a replacement document is
used outright in both scripts, with other directives present. -/
theorem C5_witness :
    (⟨some (Json.obj [("x", Json.num 1)]),
        [⟨some "cat", some "dog", none, none, none⟩]⟩ : ClaudeQa).corrected_json =
      some (Json.obj [("x", Json.num 1)]) ∧
    jeq (Json.obj [("x", Json.num 1)]) (Json.str "null") = false ∧
    (⟨some (Json.obj [("y", Json.num 2)]),
        [⟨some "cat", some "dog", none, none, none⟩]⟩ : GemQa).corrected_json =
      some (Json.obj [("y", Json.num 2)]) ∧
    truthy (Json.obj [("y", Json.num 2)]) = true ∧
    (claude_process_page (some (Json.obj [("text", Json.str "the cat sat")]))
        (some ⟨some (Json.obj [("x", Json.num 1)]),
          [⟨some "cat", some "dog", none, none, none⟩]⟩) =
      (Json.obj [("x", Json.num 1)], [ClaudeRec.fullReplacement]) ∧
    (gemini_process_page (some (Json.obj [("text", Json.str "the cat sat")]))
        (some ⟨some (Json.obj [("y", Json.num 2)]),
          [⟨some "cat", some "dog", none, none, none⟩]⟩)).saved =
      Json.obj [("y", Json.num 2)]) :=
  ⟨rfl, rfl, rfl, rfl,
    C5_full_replacement_amended (some (Json.obj [("text", Json.str "the cat sat")]))
      ⟨some (Json.obj [("x", Json.num 1)]), [⟨some "cat", some "dog", none, none, none⟩]⟩
      (Json.obj [("x", Json.num 1)]) rfl rfl
      (Json.obj [("text", Json.str "the cat sat")])
      ⟨some (Json.obj [("y", Json.num 2)]), [⟨some "cat", some "dog", none, none, none⟩]⟩
      (Json.obj [("y", Json.num 2)]) rfl rfl⟩

/-! ### The interchange-format reader (model of Python `json.loads`)

Modelled from the spec: the "standard textual serialization (the
interchange format used throughout)" is JSON, read by the Python standard
library, which is not part of the repository.  The model is a strict
recursive-descent reader over the character list.  Two documented
deviations, on which no claim depends: numbers are integers (no
fraction/exponent forms), and a lone `\uXXXX` surrogate is rejected
rather than kept.  The error constructors stand for CPython's
`JSONDecodeError` messages, which retry_failed.py inspects textually. -/

inductive JErr where
  | expectingValue : JErr
  | expectingComma : JErr
  | expectingColon : JErr
  | expectingPropertyName : JErr
  | unterminatedString : JErr
  | invalidControl : JErr
  | invalidEscape : JErr
  | extraData : JErr
  | depthExceeded : JErr

def isJsonWs (c : Char) : Bool := c = ' ' || c = '\t' || c = '\n' || c = '\r'

def skipWs (l : List Char) : List Char := l.dropWhile isJsonWs

/-- Python `str.strip` whitespace (and `re` `\s`), ASCII part:
space, tab, newline, carriage return, vertical tab, form feed. -/
def isPyWsCh (c : Char) : Bool :=
  c = ' ' || c = '\t' || c = '\n' || c = '\r' || c = Char.ofNat 11 || c = Char.ofNat 12

def pyStripL (l : List Char) : List Char :=
  ((l.dropWhile isPyWsCh).reverse.dropWhile isPyWsCh).reverse

def pyRstripL (l : List Char) : List Char := (l.reverse.dropWhile isPyWsCh).reverse

def pyStrip (s : String) : String := String.mk (pyStripL s.data)

def pyRstrip (s : String) : String := String.mk (pyRstripL s.data)

def isDigitCh (c : Char) : Bool := decide (48 ≤ c.toNat) && decide (c.toNat ≤ 57)

def digitVal (c : Char) : Nat := c.toNat - 48

def charsToNatAux (acc : Nat) : List Char → Nat
  | [] => acc
  | c :: cs => charsToNatAux (acc * 10 + digitVal c) cs

def hexVal (c : Char) : Option Nat :=
  if isDigitCh c then some (c.toNat - 48)
  else if decide ('a' ≤ c) && decide (c ≤ 'f') then some (c.toNat - 87)
  else if decide ('A' ≤ c) && decide (c ≤ 'F') then some (c.toNat - 55)
  else none

/-- String-literal body, after the opening quote; `acc` is the content so
far.  Literal control characters are rejected (CPython strict mode); the
eight short escapes and `\uXXXX` are recognized. -/
def parseStringBody (acc : List Char) : List Char → Except JErr (String × List Char)
  | [] => .error .unterminatedString
  | c :: rest =>
    if c = '"' then .ok (String.mk acc, rest)
    else if c = '\\' then
      match rest with
      | [] => .error .unterminatedString
      | e :: r2 =>
        if e = '"' then parseStringBody (acc ++ ['"']) r2
        else if e = '\\' then parseStringBody (acc ++ ['\\']) r2
        else if e = '/' then parseStringBody (acc ++ ['/']) r2
        else if e = 'b' then parseStringBody (acc ++ [Char.ofNat 8]) r2
        else if e = 'f' then parseStringBody (acc ++ [Char.ofNat 12]) r2
        else if e = 'n' then parseStringBody (acc ++ ['\n']) r2
        else if e = 'r' then parseStringBody (acc ++ ['\r']) r2
        else if e = 't' then parseStringBody (acc ++ ['\t']) r2
        else if e = 'u' then
          match r2 with
          | h1 :: h2 :: h3 :: h4 :: r3 =>
            match hexVal h1, hexVal h2, hexVal h3, hexVal h4 with
            | some a, some b, some c2, some d =>
              let m := ((a * 16 + b) * 16 + c2) * 16 + d
              if 55296 ≤ m ∧ m ≤ 57343 then .error .invalidEscape
              else parseStringBody (acc ++ [Char.ofNat m]) r3
            | _, _, _, _ => .error .invalidEscape
          | _ => .error .invalidEscape
        else .error .invalidEscape
    else if c.toNat < 32 then .error .invalidControl
    else parseStringBody (acc ++ [c]) rest

/-- An integer literal: `-`? then `0` alone or a nonzero digit followed by
digits (CPython's number grammar, without fraction/exponent). -/
def parseIntNumber (s : List Char) : Except JErr (Json × List Char) :=
  match s with
  | [] => .error .expectingValue
  | c :: r =>
    if c = '-' then
      match r with
      | [] => .error .expectingValue
      | d :: r2 =>
        if d = '0' then .ok (Json.num 0, r2)
        else if isDigitCh d then
          .ok (Json.num (-(charsToNatAux 0 ((d :: r2).takeWhile isDigitCh) : Int)),
            (d :: r2).dropWhile isDigitCh)
        else .error .expectingValue
    else if c = '0' then .ok (Json.num 0, r)
    else if isDigitCh c then
      .ok (Json.num (charsToNatAux 0 ((c :: r).takeWhile isDigitCh)),
        (c :: r).dropWhile isDigitCh)
    else .error .expectingValue

mutual

def parseValue : Nat → List Char → Except JErr (Json × List Char)
  | 0, _ => .error .depthExceeded
  | fuel + 1, s =>
    match skipWs s with
    | [] => .error .expectingValue
    | c :: rest =>
      if c = lbrace then
        match skipWs rest with
        | c2 :: r2 =>
          if c2 = rbrace then .ok (Json.obj [], r2)
          else parseMembers fuel [] (c2 :: r2)
        | [] => .error .expectingPropertyName
      else if c = '[' then
        match skipWs rest with
        | c2 :: r2 =>
          if c2 = ']' then .ok (Json.arr [], r2)
          else parseItems fuel [] (c2 :: r2)
        | [] => .error .expectingValue
      else if c = '"' then
        match parseStringBody [] rest with
        | .ok (str, r2) => .ok (Json.str str, r2)
        | .error e => .error e
      else if c = 't' then
        if isPrefList ['r', 'u', 'e'] rest then .ok (Json.bool true, rest.drop 3)
        else .error .expectingValue
      else if c = 'f' then
        if isPrefList ['a', 'l', 's', 'e'] rest then .ok (Json.bool false, rest.drop 4)
        else .error .expectingValue
      else if c = 'n' then
        if isPrefList ['u', 'l', 'l'] rest then .ok (Json.null, rest.drop 3)
        else .error .expectingValue
      else if c = '-' || isDigitCh c then parseIntNumber (c :: rest)
      else .error .expectingValue

def parseItems : Nat → List Json → List Char → Except JErr (Json × List Char)
  | 0, _, _ => .error .depthExceeded
  | fuel + 1, acc, s =>
    match parseValue fuel s with
    | .error e => .error e
    | .ok (v, s1) =>
      match skipWs s1 with
      | c :: s2 =>
        if c = ',' then parseItems fuel (acc ++ [v]) s2
        else if c = ']' then .ok (Json.arr (acc ++ [v]), s2)
        else .error .expectingComma
      | [] => .error .expectingComma

def parseMembers : Nat → List (String × Json) → List Char → Except JErr (Json × List Char)
  | 0, _, _ => .error .depthExceeded
  | fuel + 1, acc, s =>
    match s with
    | c :: rest =>
      if c = '"' then
        match parseStringBody [] rest with
        | .error e => .error e
        | .ok (k, s1) =>
          match skipWs s1 with
          | c2 :: s2 =>
            if c2 = ':' then
              match parseValue fuel s2 with
              | .error e => .error e
              | .ok (v, s3) =>
                match skipWs s3 with
                | c3 :: s4 =>
                  if c3 = ',' then parseMembers fuel (acc ++ [(k, v)]) (skipWs s4)
                  else if c3 = rbrace then .ok (Json.obj (acc ++ [(k, v)]), s4)
                  else .error .expectingComma
                | [] => .error .expectingComma
            else .error .expectingColon
          | [] => .error .expectingColon
      else .error .expectingPropertyName
    | [] => .error .expectingPropertyName

end

/-- Python `json.loads`: one value, then nothing but whitespace.  The fuel
`2·n + 2` strictly exceeds the number of parsing frames any input of
length `n` can open, so `depthExceeded` is unreachable from this entry
point (CPython's recursion limit is outside the model). -/
def json_loads (s : String) : Except JErr Json :=
  match parseValue (2 * s.data.length + 2) s.data with
  | .error e => .error e
  | .ok (v, rest) =>
    match skipWs rest with
    | [] => .ok v
    | _ => .error .extraData

/-! ### The recovery engine of archive/scripts/retry_failed.py (`extract_json_robust`) -/

/-- One pass of `re.sub(r',(\s*[}\]])', r'\1', raw)`: every comma followed
by optional whitespace and a closing brace/bracket is dropped (the
whitespace and bracket are kept); scanning resumes after each match.
Fuel equal to the list length suffices, as every step consumes a
character. -/
def commaFixAux : Nat → List Char → List Char
  | _, [] => []
  | 0, l => l
  | fuel + 1, c :: rest =>
    if c = ',' then
      match rest.dropWhile isPyWsCh with
      | b :: tail =>
        if b = rbrace || b = ']' then
          rest.takeWhile isPyWsCh ++ b :: commaFixAux fuel tail
        else c :: commaFixAux fuel rest
      | [] => c :: commaFixAux fuel rest
    else c :: commaFixAux fuel rest

def commaFix (l : List Char) : List Char := commaFixAux l.length l

def btChar : Char := Char.ofNat 96

/-- Is "```" present at index `i`? -/
def tickAt (l : List Char) (i : Nat) : Bool :=
  isPrefList [btChar, btChar, btChar] (l.drop i)

/-- Start of the leftmost match of `re.search(r'```(?:json)?\s*\n?(.*?)```', raw, re.DOTALL)`:
the pattern matches at `p` exactly when "```" occurs at `p` and again at
some `q ≥ p + 3` (the optional tag, the whitespace and the lazy group can
all be empty or absorb anything, so no further condition remains). -/
def fenceMatchStart (l : List Char) : Option Nat :=
  (List.range l.length).find? fun p =>
    tickAt l p && (List.range l.length).any fun q => decide (p + 3 ≤ q) && tickAt l q

/-- Stage 1 of `extract_json_robust`: `m.group(1).strip()` of the regex
above, or the text unchanged when there is no match.  After the opening
"```", a greedy `(?:json)?` consumes a literal "json" when present; the
greedy `\s*\n?` then swallows exactly the whitespace run (whitespace
contains no backtick, so no backtracking can occur), and the lazy group
ends at the next "```".  Since the skipped run is whitespace and the group
is `.strip()`ped anyway, the model strips the slice that starts right
after the tag. -/
def fenceStrip (raw : String) : String :=
  let l := raw.data
  match fenceMatchStart l with
  | none => raw
  | some p =>
    let cur0 := p + 3
    let cur := if isPrefList ['j', 's', 'o', 'n'] (l.drop cur0) then cur0 + 4 else cur0
    match (List.range l.length).find? (fun q => decide (cur ≤ q) && tickAt l q) with
    | none => raw
    | some q => String.mk (pyStripL ((l.drop cur).take (q - cur)))

/-- Stage 2: a direct parse of the (fence-stripped) text. -/
def direct_parse_stage (t : String) : Option Json := (json_loads t).toOption

/-- Stage 3: trailing-comma repair followed by a re-parse. -/
def trailing_comma_stage (t : String) : Option Json :=
  (json_loads (String.mk (commaFix t.data))).toOption

/-- The scan of stage 4: starting at the first `\x7b`, track brace depth and
report the length of the slice ending where depth first returns to zero
(braces inside string literals count too, as in the source). -/
def scanBalanced (depth i : Nat) : List Char → Option Nat
  | [] => none
  | c :: rest =>
    let depth := if c = lbrace then depth + 1 else if c = rbrace then depth - 1 else depth
    if depth = 0 then some (i + 1) else scanBalanced depth (i + 1) rest

/-- Index of the first occurrence of a character (Python `str.find`,
`None` for Python's `-1`). -/
def strFind (c : Char) : List Char → Option Nat
  | [] => none
  | x :: xs => if x = c then some 0 else (strFind c xs).map (· + 1)

/-- Stage 4: parse the substring from the first opening brace to the point
where the brace depth first returns to zero; a single attempt, abandoned
if that parse fails. -/
def balanced_brace_stage (t : String) : Option Json :=
  match strFind lbrace t.data with
  | none => none
  | some start =>
    match scanBalanced 0 0 (t.data.drop start) with
    | none => none
    | some n =>
      match json_loads (String.mk ((t.data.drop start).take n)) with
      | .ok v => some v
      | .error _ => none

/-- The message test `'Expecting' in str(e) and (',' in str(e) or '\x7d' in
str(e) or ']' in str(e))` of retry_failed.py line 62: among CPython's
`JSONDecodeError` messages ("Expecting value", "Expecting ',' delimiter",
"Expecting ':' delimiter", "Expecting property name enclosed in double
quotes", "Unterminated string starting at", "Invalid control character
at", "Invalid \escape", "Invalid \uXXXX escape", "Extra data" — each
followed by "line L column C (char N)"), exactly "Expecting ',' delimiter"
contains 'Expecting' together with one of ',', '\x7d', ']'. -/
def errTriggersTruncationRepair : JErr → Bool
  | .expectingComma => true
  | _ => false

/-- The iterative loop of stage 5: parse; on a triggering error drop a
dangling trailing comma if present and append "]\x7d"; at most 10
iterations. -/
def truncation_loop : Nat → String → Option Json
  | 0, _ => none
  | it + 1, attempt =>
    match json_loads attempt with
    | .ok v => some v
    | .error e =>
      if errTriggersTruncationRepair e then
        let base :=
          if (pyRstrip attempt).data.getLast? = some ',' then
            String.mk (pyRstrip attempt).data.dropLast
          else attempt
        truncation_loop it (base ++ "]\x7d")
      else none

/-- Stage 5: truncation repair, attempted only when the stripped text
starts with an opening brace. -/
def truncation_repair_stage (t : String) : Option Json :=
  if (pyStrip t).data.head? = some lbrace then truncation_loop 10 (pyStrip t) else none

/-- `extract_json_robust` of archive/scripts/retry_failed.py (lines 24-68):
empty input short-circuits; then fence extraction, direct parse,
trailing-comma repair, balanced-brace extraction and truncation repair in
that order, stopping at the first parse that succeeds. -/
def extract_json_robust (raw : String) : Option Json :=
  if raw = "" then none
  else
    let r := fenceStrip raw
    match json_loads r with
    | .ok v => some v
    | .error _ =>
      match json_loads (String.mk (commaFix r.data)) with
      | .ok v => some v
      | .error _ =>
        match balanced_brace_stage r with
        | some v => some v
        | none => truncation_repair_stage r

/-! Instrumentation of the same control flow: how many `json.loads` calls
(the parse attempts of stages 2-5) `extract_json_robust` performs on a
given input.  Used to settle the "steps 2-5 are skipped" part of the
empty-input claim. -/

def truncation_loop_attempts : Nat → String → Nat
  | 0, _ => 0
  | it + 1, attempt =>
    match json_loads attempt with
    | .ok _ => 1
    | .error e =>
      if errTriggersTruncationRepair e then
        let base :=
          if (pyRstrip attempt).data.getLast? = some ',' then
            String.mk (pyRstrip attempt).data.dropLast
          else attempt
        1 + truncation_loop_attempts it (base ++ "]\x7d")
      else 1

def truncation_stage_attempts (t : String) : Nat :=
  if (pyStrip t).data.head? = some lbrace then truncation_loop_attempts 10 (pyStrip t) else 0

def balanced_stage_attempts (t : String) : Nat :=
  match strFind lbrace t.data with
  | none => 0
  | some start =>
    match scanBalanced 0 0 (t.data.drop start) with
    | none => 0
    | some _ => 1

def extract_json_robust_attempts (raw : String) : Nat :=
  if raw = "" then 0
  else
    let r := fenceStrip raw
    match json_loads r with
    | .ok _ => 1
    | .error _ =>
      match json_loads (String.mk (commaFix r.data)) with
      | .ok _ => 2
      | .error _ =>
        2 + balanced_stage_attempts r +
          match balanced_brace_stage r with
          | some _ => 0
          | none => truncation_stage_attempts r

/-! ### The older recovery of archive/scripts/extract.py (`extract_json_from_response`)

Exceptions that the Python code can raise are modelled in `Except`: the
only raising operation is `str.index` on a missing closing fence
(`ValueError`). -/

inductive PyExc where
  | valueError : PyExc

/-- One pass of `re.sub(r',\s*\x7d', '\x7d', raw)` (or the `]` variant):
comma, optional whitespace and the bracket are all replaced by the bare
bracket. -/
def commaSubAux (bracket : Char) : Nat → List Char → List Char
  | _, [] => []
  | 0, l => l
  | fuel + 1, c :: rest =>
    if c = ',' then
      match rest.dropWhile isPyWsCh with
      | b :: tail =>
        if b = bracket then bracket :: commaSubAux bracket fuel tail
        else c :: commaSubAux bracket fuel rest
      | [] => c :: commaSubAux bracket fuel rest
    else c :: commaSubAux bracket fuel rest

def commaSub (bracket : Char) (l : List Char) : List Char := commaSubAux bracket l.length l

/-- `extract_json_from_response` of archive/scripts/extract.py
(lines 136-164): fence extraction by `str.index` (which raises
`ValueError` when a fence opener has no closing "```"), then a direct
parse, then — only for text starting with `\x7b` or `[` — trailing-comma
removal and one re-parse; `None` models both `return None` paths. -/
def extract_json_from_response (raw : String) : Except PyExc (Option Json) :=
  if raw = "" then .ok none
  else
    let l := raw.data
    let step1 : Except PyExc (List Char) :=
      match subIndexFrom l ("```json".data) 0 with
      | some i =>
        match subIndexFrom l [btChar, btChar, btChar] (i + 7) with
        | none => .error .valueError
        | some e => .ok (pyStripL ((l.drop (i + 7)).take (e - (i + 7))))
      | none =>
        match subIndexFrom l [btChar, btChar, btChar] 0 with
        | some i =>
          match subIndexFrom l [btChar, btChar, btChar] (i + 3) with
          | none => .error .valueError
          | some e => .ok (pyStripL ((l.drop (i + 3)).take (e - (i + 3))))
        | none => .ok l
    match step1 with
    | .error e => .error e
    | .ok t =>
      match json_loads (String.mk t) with
      | .ok v => .ok (some v)
      | .error _ =>
        match pyStripL t with
        | c :: r =>
          if c = lbrace || c = '[' then
            match json_loads (String.mk (commaSub ']' (commaSub rbrace (c :: r)))) with
            | .ok v => .ok (some v)
            | .error _ => .ok none
          else .ok none
        | [] => .ok none

/-! ### Claims about the recovery engine: stage order, exceptions, empty input -/

/-- C2: `extract_json_robust` attempts exactly the five stages in order —
fence extraction, direct parse, trailing-comma repair, balanced-brace
extraction, truncation repair — each later parse stage deciding the result
only when every earlier one failed, and the first success determining the
result. -/
theorem C2_recovery_stage_order (raw : String) (v : Json) (h : raw ≠ "") :
    (direct_parse_stage (fenceStrip raw) = some v → extract_json_robust raw = some v) ∧
    (direct_parse_stage (fenceStrip raw) = none →
      trailing_comma_stage (fenceStrip raw) = some v → extract_json_robust raw = some v) ∧
    (direct_parse_stage (fenceStrip raw) = none → trailing_comma_stage (fenceStrip raw) = none →
      balanced_brace_stage (fenceStrip raw) = some v → extract_json_robust raw = some v) ∧
    (direct_parse_stage (fenceStrip raw) = none → trailing_comma_stage (fenceStrip raw) = none →
      balanced_brace_stage (fenceStrip raw) = none →
      extract_json_robust raw = truncation_repair_stage (fenceStrip raw)) := by
  have hr : extract_json_robust raw =
      (match json_loads (fenceStrip raw) with
       | .ok v => some v
       | .error _ =>
         match json_loads (String.mk (commaFix (fenceStrip raw).data)) with
         | .ok v => some v
         | .error _ =>
           match balanced_brace_stage (fenceStrip raw) with
           | some v => some v
           | none => truncation_repair_stage (fenceStrip raw)) := by
    simp only [extract_json_robust, if_neg h]
  refine ⟨?_, ?_, ?_, ?_⟩
  · intro hd
    cases hj : json_loads (fenceStrip raw) with
    | ok w =>
      rw [hr, hj]
      simpa [direct_parse_stage, hj, Except.toOption] using hd
    | error e => simp [direct_parse_stage, hj, Except.toOption] at hd
  · intro hd ht
    cases hj : json_loads (fenceStrip raw) with
    | ok w => simp [direct_parse_stage, hj, Except.toOption] at hd
    | error e =>
      cases hj2 : json_loads (String.mk (commaFix (fenceStrip raw).data)) with
      | ok w =>
        rw [hr, hj, hj2]
        simpa [trailing_comma_stage, hj2, Except.toOption] using ht
      | error e2 => simp [trailing_comma_stage, hj2, Except.toOption] at ht
  · intro hd ht hb
    cases hj : json_loads (fenceStrip raw) with
    | ok w => simp [direct_parse_stage, hj, Except.toOption] at hd
    | error e =>
      cases hj2 : json_loads (String.mk (commaFix (fenceStrip raw).data)) with
      | ok w => simp [trailing_comma_stage, hj2, Except.toOption] at ht
      | error e2 => rw [hr, hj, hj2, hb]
  · intro hd ht hb
    cases hj : json_loads (fenceStrip raw) with
    | ok w => simp [direct_parse_stage, hj, Except.toOption] at hd
    | error e =>
      cases hj2 : json_loads (String.mk (commaFix (fenceStrip raw).data)) with
      | ok w => simp [trailing_comma_stage, hj2, Except.toOption] at ht
      | error e2 => rw [hr, hj, hj2, hb]

/-- Witness for C2 on the concrete input "7": the direct-parse stage
succeeds and the result is its value. -/
theorem C2_witness :
    ("7" : String) ≠ "" ∧
    ((direct_parse_stage (fenceStrip "7") = some (Json.num 7) →
        extract_json_robust "7" = some (Json.num 7)) ∧
      (direct_parse_stage (fenceStrip "7") = none →
        trailing_comma_stage (fenceStrip "7") = some (Json.num 7) →
          extract_json_robust "7" = some (Json.num 7)) ∧
      (direct_parse_stage (fenceStrip "7") = none → trailing_comma_stage (fenceStrip "7") = none →
        balanced_brace_stage (fenceStrip "7") = some (Json.num 7) →
          extract_json_robust "7" = some (Json.num 7)) ∧
      (direct_parse_stage (fenceStrip "7") = none → trailing_comma_stage (fenceStrip "7") = none →
        balanced_brace_stage (fenceStrip "7") = none →
          extract_json_robust "7" = truncation_repair_stage (fenceStrip "7"))) :=
  ⟨by decide, C2_recovery_stage_order "7" (Json.num 7) (by decide)⟩

/-- C4: the claim that no input makes recovery raise is right about
`extract_json_robust` but wrong about `extract_json_from_response`: on an
input with a fence opener and no closing fence — the very case the claim
names — the older function's `raw.index("```", start)` raises
`ValueError`, while the robust rewrite returns the failure marker. -/
theorem C4_unclosed_fence_raises :
    extract_json_from_response "```json \x7b\"a\": 1" = .error PyExc.valueError ∧
    extract_json_robust "```json \x7b\"a\": 1" = none :=
  ⟨rfl, rfl⟩

/-! Supporting lemmas: on a whitespace-only input every stage fails. -/

theorem tickAt_mem {l : List Char} {p : Nat} (h : tickAt l p = true) : btChar ∈ l := by
  unfold tickAt at h
  cases hd : l.drop p with
  | nil => rw [hd] at h; simp [isPrefList] at h
  | cons b rest =>
    rw [hd] at h
    simp only [isPrefList, Bool.and_eq_true, decide_eq_true_eq] at h
    have hb : b ∈ l.drop p := hd ▸ List.mem_cons_self b rest
    have hb2 : b ∈ l := List.drop_subset p l hb
    rw [h.1]
    exact hb2

theorem fenceMatchStart_none {l : List Char} (h : btChar ∉ l) : fenceMatchStart l = none := by
  unfold fenceMatchStart
  rw [List.find?_eq_none]
  intro p _
  simp only [Bool.and_eq_true, List.any_eq_true, decide_eq_true_eq, not_and]
  intro ht
  exact absurd (tickAt_mem ht) h

theorem fenceStrip_id {s : String} (h : btChar ∉ s.data) : fenceStrip s = s := by
  simp only [fenceStrip, fenceMatchStart_none h]

theorem dropWhile_head_false {p : Char → Bool} :
    ∀ (l : List Char) (c : Char) (rest : List Char), l.dropWhile p = c :: rest → p c = false
  | [], c, rest, h => by simp [List.dropWhile] at h
  | x :: xs, c, rest, h => by
    rw [List.dropWhile_cons] at h
    by_cases hx : p x = true
    · rw [if_pos hx] at h
      exact dropWhile_head_false xs c rest h
    · rw [if_neg hx] at h
      cases h
      exact Bool.eq_false_iff.mpr hx

theorem all_dropWhile {p q : Char → Bool} {l : List Char} (h : l.all q = true) :
    (l.dropWhile p).all q = true := by
  rw [List.all_eq_true] at h ⊢
  intro x hx
  exact h x (List.dropWhile_subset p hx)

/-- `json.loads` of a whitespace-only string fails with "Expecting value". -/
theorem json_loads_all_pyws {s : String} (h : s.data.all isPyWsCh = true) :
    json_loads s = .error JErr.expectingValue := by
  have h2 : 2 * s.data.length + 2 = (2 * s.data.length + 1) + 1 := rfl
  unfold json_loads
  rw [h2]
  cases hsw : s.data.dropWhile isJsonWs with
  | nil => simp [parseValue, skipWs, hsw]
  | cons c rest =>
    have hcall : (s.data.dropWhile isJsonWs).all isPyWsCh = true := all_dropWhile h
    rw [hsw] at hcall
    simp only [List.all_cons, Bool.and_eq_true] at hcall
    have hc_py : isPyWsCh c = true := hcall.1
    have hc_nj : isJsonWs c = false := dropWhile_head_false _ _ _ hsw
    have hc : c = Char.ofNat 11 ∨ c = Char.ofNat 12 := by
      simp only [isPyWsCh, Bool.or_eq_true, decide_eq_true_eq] at hc_py
      rcases hc_py with ((((h1 | h1) | h1) | h1) | h1) | h1
      · subst h1; simp [isJsonWs] at hc_nj
      · subst h1; simp [isJsonWs] at hc_nj
      · subst h1; simp [isJsonWs] at hc_nj
      · subst h1; simp [isJsonWs] at hc_nj
      · exact Or.inl h1
      · exact Or.inr h1
    rcases hc with h1 | h1 <;> subst h1 <;>
      simp [parseValue, skipWs, hsw, lbrace, isDigitCh]

theorem commaFixAux_no_comma :
    ∀ (fuel : Nat) (l : List Char), (',' ∉ l) → commaFixAux fuel l = l
  | _, [], _ => by simp [commaFixAux]
  | 0, _ :: _, _ => by simp [commaFixAux]
  | fuel + 1, c :: rest, h => by
    have hc : ¬(c = ',') := fun hh => h (hh ▸ List.mem_cons_self c rest)
    have hrest : ',' ∉ rest := fun hm => h (List.mem_cons_of_mem c hm)
    simp [commaFixAux, hc, commaFixAux_no_comma fuel rest hrest]

theorem mem_of_all_pyws {l : List Char} (h : l.all isPyWsCh = true) {c : Char}
    (hc : isPyWsCh c = false) : c ∉ l := by
  intro hm
  rw [List.all_eq_true] at h
  rw [h c hm] at hc
  cases hc

theorem strFind_lbrace_none {l : List Char} (h : lbrace ∉ l) :
    strFind lbrace l = none := by
  induction l with
  | nil => rfl
  | cons x xs ih =>
    have hx : ¬(x = lbrace) := fun hh => h (hh ▸ List.mem_cons_self x xs)
    simp only [strFind, if_neg hx, ih (fun hm => h (List.mem_cons_of_mem x hm))]
    rfl

theorem pyStripL_all_pyws {l : List Char} (h : l.all isPyWsCh = true) : pyStripL l = [] := by
  unfold pyStripL
  have h1 : l.dropWhile isPyWsCh = [] := by
    rw [List.dropWhile_eq_nil_iff]
    intro x hx
    rw [List.all_eq_true] at h
    exact h x hx
  rw [h1]
  rfl

/-- C9 counterexample: on the whitespace-only input "   " recovery does
yield the failure marker, but not immediately: the control flow reaches
stages 2 and 3, performing two parse attempts, refuting "the result is
produced immediately with fallback steps 2-5 skipped". -/
theorem C9_counterexample :
    extract_json_robust "   " = none ∧ extract_json_robust_attempts "   " = 2 ∧
      ¬ extract_json_robust_attempts "   " = 0 :=
  ⟨rfl, rfl, by decide⟩

/-- C9 amended: recovery of the empty string and of any whitespace-only
string returns the failure marker, never a Document; the empty string
short-circuits before any parse attempt, while a whitespace-only string
falls through stages 2-5, which all fail. -/
theorem C9_empty_and_whitespace_amended (s : String) (h1 : s ≠ "")
    (h2 : s.data.all isPyWsCh = true) :
    extract_json_robust "" = none ∧ extract_json_robust_attempts "" = 0 ∧
      extract_json_robust s = none := by
  refine ⟨rfl, rfl, ?_⟩
  have hbt : btChar ∉ s.data := mem_of_all_pyws h2 (by decide)
  have hcm : ',' ∉ s.data := mem_of_all_pyws h2 (by decide)
  have hlb : lbrace ∉ s.data := mem_of_all_pyws h2 (by decide)
  have hfs : fenceStrip s = s := fenceStrip_id hbt
  have hcf : String.mk (commaFix s.data) = s := by
    unfold commaFix
    rw [commaFixAux_no_comma _ _ hcm]
  have hload : json_loads s = .error JErr.expectingValue := json_loads_all_pyws h2
  have hbal : balanced_brace_stage s = none := by
    unfold balanced_brace_stage
    rw [strFind_lbrace_none hlb]
  have htr : truncation_repair_stage s = none := by
    unfold truncation_repair_stage
    unfold pyStrip
    rw [pyStripL_all_pyws h2]
    simp
  simp only [extract_json_robust, if_neg h1, hfs, hcf, hload, hbal, htr]

/-- Witness for the amended C9 at the concrete whitespace-only input "   ". -/
theorem C9_witness :
    ("   " : String) ≠ "" ∧ "   ".data.all isPyWsCh = true ∧
    (extract_json_robust "" = none ∧ extract_json_robust_attempts "" = 0 ∧
      extract_json_robust "   " = none) :=
  ⟨by decide, by decide, C9_empty_and_whitespace_amended "   " (by decide) (by decide)⟩

/-! ### The interchange-format writer (model of Python `json.dumps`)

Modelled from the spec: the standard serialization used by the pipeline is
`json.dump(..., ensure_ascii=False)` — default separators ", " and ": ",
short escapes for quote, backslash and the five named control characters,
`\u00xx` for the remaining control characters, all other characters
literal. -/

def hexDigitCh : Nat → Char
  | 0 => '0' | 1 => '1' | 2 => '2' | 3 => '3' | 4 => '4'
  | 5 => '5' | 6 => '6' | 7 => '7' | 8 => '8' | 9 => '9'
  | 10 => 'a' | 11 => 'b' | 12 => 'c' | 13 => 'd' | 14 => 'e' | 15 => 'f'
  | _ => '0'

def digitChar (n : Nat) : Char := hexDigitCh n

def natToChars : Nat → Nat → List Char
  | 0, n => [digitChar n]
  | fuel + 1, n => if n < 10 then [digitChar n] else natToChars fuel (n / 10) ++ [digitChar (n % 10)]

def intChars (n : Int) : List Char :=
  if n < 0 then '-' :: natToChars n.natAbs n.natAbs else natToChars n.toNat n.toNat

def escChar (c : Char) : List Char :=
  if c = '"' then ['\\', '"']
  else if c = '\\' then ['\\', '\\']
  else if c = '\n' then ['\\', 'n']
  else if c = '\r' then ['\\', 'r']
  else if c = '\t' then ['\\', 't']
  else if c = Char.ofNat 8 then ['\\', 'b']
  else if c = Char.ofNat 12 then ['\\', 'f']
  else if c.toNat < 32 then ['\\', 'u', '0', '0', hexDigitCh (c.toNat / 16), hexDigitCh (c.toNat % 16)]
  else [c]

def escChars : List Char → List Char
  | [] => []
  | c :: cs => escChar c ++ escChars cs

mutual

def serJson : Json → List Char
  | .num n => intChars n
  | .null => ['n', 'u', 'l', 'l']
  | .str s => '"' :: (escChars s.data ++ ['"'])
  | .bool true => ['t', 'r', 'u', 'e']
  | .arr [] => ['[', ']']
  | .bool false => ['f', 'a', 'l', 's', 'e']
  | .arr (x :: xs) => '[' :: (serJson x ++ serItems xs ++ [']'])
  | .obj [] => [lbrace, rbrace]
  | .obj (m :: ms) => lbrace :: (serMemberOne m ++ serMembers ms ++ [rbrace])

def serItems : List Json → List Char
  | [] => []
  | x :: xs => ',' :: ' ' :: (serJson x ++ serItems xs)

def serMemberOne : String × Json → List Char
  | (k, v) => '"' :: (escChars k.data ++ ['"', ':', ' '] ++ serJson v)

def serMembers : List (String × Json) → List Char
  | [] => []
  | m :: ms => ',' :: ' ' :: (serMemberOne m ++ serMembers ms)

end

/-- The standard serialization of a Document. -/
def serialize (d : Json) : String := String.mk (serJson d)

/-! Size measure used to discharge the reader's fuel. -/

mutual

def jsize : Json → Nat
  | .null | .bool _ | .num _ | .str _ => 1
  | .arr xs => 1 + jsizeList xs
  | .obj ms => 1 + jsizePairs ms

def jsizeList : List Json → Nat
  | [] => 0
  | x :: xs => 1 + jsize x + jsizeList xs

def jsizePairs : List (String × Json) → Nat
  | [] => 0
  | (_, v) :: ms => 1 + jsize v + jsizePairs ms

end

/-! Digit arithmetic round-trip lemmas. -/

theorem isDigitCh_iff {c : Char} : isDigitCh c = true ↔ 48 ≤ c.toNat ∧ c.toNat ≤ 57 := by
  simp [isDigitCh]

theorem digit_ne {c : Char} (h : isDigitCh c = true) (d : Char)
    (hd : d.toNat < 48 ∨ 57 < d.toNat) : c ≠ d := by
  intro he
  subst he
  rcases isDigitCh_iff.mp h with ⟨h1, h2⟩
  omega

theorem digitChar_spec {n : Nat} (h : n < 10) :
    isDigitCh (digitChar n) = true ∧ digitVal (digitChar n) = n := by
  interval_cases n <;> exact ⟨by decide, by decide⟩

theorem digitChar_ne_zero {n : Nat} (h1 : 1 ≤ n) (h2 : n < 10) : digitChar n ≠ '0' := by
  interval_cases n <;> decide

theorem natToChars_all_digits : ∀ (fuel n : Nat), n ≤ fuel →
    (natToChars fuel n).all isDigitCh = true
  | 0, n, h => by
    have : n = 0 := Nat.le_zero.mp h
    subst this
    decide
  | fuel + 1, n, h => by
    by_cases h10 : n < 10
    · simp only [natToChars, if_pos h10, List.all_cons, List.all_nil, Bool.and_true]
      exact (digitChar_spec h10).1
    · have hlt : n / 10 < n := Nat.div_lt_self (by omega) (by omega)
      have hd : n / 10 ≤ fuel := by omega
      simp only [natToChars, if_neg h10, List.all_append, List.all_cons, List.all_nil,
        Bool.and_true, Bool.and_eq_true]
      exact ⟨natToChars_all_digits fuel (n / 10) hd,
        (digitChar_spec (Nat.mod_lt n (by omega))).1⟩

theorem natToChars_head : ∀ (fuel n : Nat), n ≤ fuel →
    ∃ hd tl, natToChars fuel n = hd :: tl ∧ isDigitCh hd = true ∧ (1 ≤ n → hd ≠ '0')
  | 0, n, h => by
    have : n = 0 := Nat.le_zero.mp h
    subst this
    exact ⟨'0', [], rfl, by decide, fun hc => absurd hc (by omega)⟩
  | fuel + 1, n, h => by
    by_cases h10 : n < 10
    · refine ⟨digitChar n, [], by simp [natToChars, if_pos h10], (digitChar_spec h10).1, ?_⟩
      intro h1
      exact digitChar_ne_zero h1 h10
    · have hlt : n / 10 < n := Nat.div_lt_self (by omega) (by omega)
      obtain ⟨hd, tl, heq, hdig, hne⟩ := natToChars_head fuel (n / 10) (by omega)
      refine ⟨hd, tl ++ [digitChar (n % 10)], ?_, hdig, fun _ => hne ?_⟩
      · simp [natToChars, if_neg h10, heq]
      · have : 10 ≤ n := by omega
        omega

theorem charsToNatAux_append (l1 l2 : List Char) : ∀ acc : Nat,
    charsToNatAux acc (l1 ++ l2) = charsToNatAux (charsToNatAux acc l1) l2 := by
  induction l1 with
  | nil => intro acc; rfl
  | cons c cs ih =>
    intro acc
    have h1 : charsToNatAux acc ((c :: cs) ++ l2) =
        charsToNatAux (acc * 10 + digitVal c) (cs ++ l2) := rfl
    have h2 : charsToNatAux acc (c :: cs) = charsToNatAux (acc * 10 + digitVal c) cs := rfl
    rw [h1, h2, ih]

theorem charsToNatAux_natToChars : ∀ (fuel n : Nat), n ≤ fuel →
    charsToNatAux 0 (natToChars fuel n) = n
  | 0, n, h => by
    have : n = 0 := Nat.le_zero.mp h
    subst this
    decide
  | fuel + 1, n, h => by
    by_cases h10 : n < 10
    · simp only [natToChars, if_pos h10]
      have h1 : charsToNatAux 0 [digitChar n] = 0 * 10 + digitVal (digitChar n) := rfl
      rw [h1, (digitChar_spec h10).2]
      omega
    · have hlt : n / 10 < n := Nat.div_lt_self (by omega) (by omega)
      have hd : n / 10 ≤ fuel := by omega
      rw [natToChars, if_neg h10, charsToNatAux_append,
        charsToNatAux_natToChars fuel (n / 10) hd]
      have h1 : charsToNatAux (n / 10) [digitChar (n % 10)] =
          n / 10 * 10 + digitVal (digitChar (n % 10)) := rfl
      rw [h1, (digitChar_spec (Nat.mod_lt n (by omega))).2]
      omega

theorem takeWhile_append_of_all {p : Char → Bool} :
    ∀ (l rest : List Char), l.all p = true → (∀ c, rest.head? = some c → p c = false) →
      (l ++ rest).takeWhile p = l ∧ (l ++ rest).dropWhile p = rest
  | [], rest, _, hrest => by
    cases rest with
    | nil => exact ⟨rfl, rfl⟩
    | cons c cs =>
      have := hrest c rfl
      simp [List.takeWhile_cons, List.dropWhile_cons, this]
  | x :: l, rest, hall, hrest => by
    simp only [List.all_cons, Bool.and_eq_true] at hall
    have ih := takeWhile_append_of_all l rest hall.2 hrest
    simp [List.takeWhile_cons, List.dropWhile_cons, hall.1, ih.1, ih.2]

theorem parseIntNumber_nonneg (n : Nat) (rest : List Char)
    (hrest : ∀ c, rest.head? = some c → isDigitCh c = false) :
    parseIntNumber (natToChars n n ++ rest) = .ok (Json.num n, rest) := by
  rcases Nat.eq_zero_or_pos n with h0 | hpos
  · subst h0
    show parseIntNumber ('0' :: ([] ++ rest)) = _
    simp [parseIntNumber]
  · obtain ⟨hd, tl, heq, hdig, hne⟩ := natToChars_head n n le_rfl
    have htw := takeWhile_append_of_all (natToChars n n) rest (natToChars_all_digits n n le_rfl) hrest
    rw [heq] at htw ⊢
    have hvne : hd ≠ '-' := digit_ne hdig '-' (by decide)
    have hv0 : hd ≠ '0' := hne hpos
    simp only [List.cons_append, parseIntNumber, if_neg hvne, if_neg hv0, if_pos hdig]
    simp only [List.cons_append] at htw
    rw [htw.1, htw.2, ← heq, charsToNatAux_natToChars n n le_rfl]

theorem parseIntNumber_neg (n : Nat) (hpos : 1 ≤ n) (rest : List Char)
    (hrest : ∀ c, rest.head? = some c → isDigitCh c = false) :
    parseIntNumber ('-' :: (natToChars n n ++ rest)) = .ok (Json.num (-(n : Int)), rest) := by
  obtain ⟨hd, tl, heq, hdig, hne⟩ := natToChars_head n n le_rfl
  have htw := takeWhile_append_of_all (natToChars n n) rest (natToChars_all_digits n n le_rfl) hrest
  rw [heq] at htw ⊢
  have hv0 : hd ≠ '0' := hne hpos
  simp only [List.cons_append, parseIntNumber, if_pos rfl, if_true, if_neg hv0, if_pos hdig]
  simp only [List.cons_append] at htw
  rw [htw.1, htw.2, ← heq, charsToNatAux_natToChars n n le_rfl]

/-! String-literal round trip: reading back an escaped string restores it. -/

theorem hexVal_hexDigitCh {m : Nat} (h : m < 16) : hexVal (hexDigitCh m) = some m := by
  interval_cases m <;> decide

theorem parseStringBody_lit (acc : List Char) (c : Char) (L : List Char)
    (hq : ¬(c = '"')) (hbs : ¬(c = '\\')) (h32 : ¬(c.toNat < 32)) :
    parseStringBody acc (c :: L) = parseStringBody (acc ++ [c]) L := by
  rw [parseStringBody.eq_def]
  simp only []
  rw [if_neg hq, if_neg hbs, if_neg h32]

theorem parseStringBody_uesc (acc : List Char) (x y : Char) (L : List Char) (a b : Nat)
    (hx : hexVal x = some a) (hy : hexVal y = some b) (hlow : a * 16 + b < 55296) :
    parseStringBody acc ('\\' :: 'u' :: '0' :: '0' :: x :: y :: L) =
      parseStringBody (acc ++ [Char.ofNat (a * 16 + b)]) L := by
  simp only [parseStringBody]
  simp [hx, hy, show hexVal '0' = some 0 from rfl]
  exact fun h1 _ => absurd h1 (by omega)

theorem parseStringBody_escChars : ∀ (cs acc rest : List Char),
    parseStringBody acc (escChars cs ++ '"' :: rest) = .ok (String.mk (acc ++ cs), rest)
  | [], acc, rest => by
    have h1 : parseStringBody acc ('"' :: rest) = .ok (String.mk acc, rest) := by
      conv_lhs => rw [parseStringBody.eq_def]
      simp
    simpa using h1
  | c :: cs, acc, rest => by
    by_cases hq : c = '"'
    · subst hq
      have hstep : parseStringBody acc ('\\' :: '"' :: (escChars cs ++ '"' :: rest)) =
          parseStringBody (acc ++ ['"']) (escChars cs ++ '"' :: rest) := by
        conv_lhs => rw [parseStringBody.eq_def]
        simp
      have hl : escChars ('"' :: cs) ++ '"' :: rest =
          '\\' :: '"' :: (escChars cs ++ '"' :: rest) := by
        simp [escChars, escChar]
      rw [hl, hstep, parseStringBody_escChars cs (acc ++ ['"']) rest]
      simp
    · by_cases hbs : c = '\\'
      · subst hbs
        have hstep : parseStringBody acc ('\\' :: '\\' :: (escChars cs ++ '"' :: rest)) =
            parseStringBody (acc ++ ['\\']) (escChars cs ++ '"' :: rest) := by
          conv_lhs => rw [parseStringBody.eq_def]
          simp
        have hl : escChars ('\\' :: cs) ++ '"' :: rest =
            '\\' :: '\\' :: (escChars cs ++ '"' :: rest) := by
          simp [escChars, escChar]
        rw [hl, hstep, parseStringBody_escChars cs (acc ++ ['\\']) rest]
        simp
      · by_cases hn : c = '\n'
        · subst hn
          have hstep : parseStringBody acc ('\\' :: 'n' :: (escChars cs ++ '"' :: rest)) =
              parseStringBody (acc ++ ['\n']) (escChars cs ++ '"' :: rest) := by
            conv_lhs => rw [parseStringBody.eq_def]
            simp
          have hl : escChars ('\n' :: cs) ++ '"' :: rest =
              '\\' :: 'n' :: (escChars cs ++ '"' :: rest) := by
            simp [escChars, escChar]
          rw [hl, hstep, parseStringBody_escChars cs (acc ++ ['\n']) rest]
          simp
        · by_cases hr : c = '\r'
          · subst hr
            have hstep : parseStringBody acc ('\\' :: 'r' :: (escChars cs ++ '"' :: rest)) =
                parseStringBody (acc ++ ['\r']) (escChars cs ++ '"' :: rest) := by
              conv_lhs => rw [parseStringBody.eq_def]
              simp
            have hl : escChars ('\r' :: cs) ++ '"' :: rest =
                '\\' :: 'r' :: (escChars cs ++ '"' :: rest) := by
              simp [escChars, escChar]
            rw [hl, hstep, parseStringBody_escChars cs (acc ++ ['\r']) rest]
            simp
          · by_cases ht : c = '\t'
            · subst ht
              have hstep : parseStringBody acc ('\\' :: 't' :: (escChars cs ++ '"' :: rest)) =
                  parseStringBody (acc ++ ['\t']) (escChars cs ++ '"' :: rest) := by
                conv_lhs => rw [parseStringBody.eq_def]
                simp
              have hl : escChars ('\t' :: cs) ++ '"' :: rest =
                  '\\' :: 't' :: (escChars cs ++ '"' :: rest) := by
                simp [escChars, escChar]
              rw [hl, hstep, parseStringBody_escChars cs (acc ++ ['\t']) rest]
              simp
            · by_cases hb : c = Char.ofNat 8
              · subst hb
                have hstep : parseStringBody acc ('\\' :: 'b' :: (escChars cs ++ '"' :: rest)) =
                    parseStringBody (acc ++ [Char.ofNat 8]) (escChars cs ++ '"' :: rest) := by
                  conv_lhs => rw [parseStringBody.eq_def]
                  simp
                have hl : escChars (Char.ofNat 8 :: cs) ++ '"' :: rest =
                    '\\' :: 'b' :: (escChars cs ++ '"' :: rest) := by
                  simp [escChars, escChar]
                rw [hl, hstep, parseStringBody_escChars cs (acc ++ [Char.ofNat 8]) rest]
                simp
              · by_cases hf : c = Char.ofNat 12
                · subst hf
                  have hstep : parseStringBody acc ('\\' :: 'f' :: (escChars cs ++ '"' :: rest)) =
                      parseStringBody (acc ++ [Char.ofNat 12]) (escChars cs ++ '"' :: rest) := by
                    conv_lhs => rw [parseStringBody.eq_def]
                    simp
                  have hl : escChars (Char.ofNat 12 :: cs) ++ '"' :: rest =
                      '\\' :: 'f' :: (escChars cs ++ '"' :: rest) := by
                    simp [escChars, escChar]
                  rw [hl, hstep, parseStringBody_escChars cs (acc ++ [Char.ofNat 12]) rest]
                  simp
                · by_cases h32 : c.toNat < 32
                  · have hesc : escChar c = ['\\', 'u', '0', '0',
                        hexDigitCh (c.toNat / 16), hexDigitCh (c.toNat % 16)] := by
                      simp only [escChar, if_neg hq, if_neg hbs, if_neg hn, if_neg hr,
                        if_neg ht, if_neg hb, if_neg hf, if_pos h32]
                    have hx : hexVal (hexDigitCh (c.toNat / 16)) = some (c.toNat / 16) :=
                      hexVal_hexDigitCh (by omega)
                    have hy : hexVal (hexDigitCh (c.toNat % 16)) = some (c.toNat % 16) :=
                      hexVal_hexDigitCh (by omega)
                    have harith : c.toNat / 16 * 16 + c.toNat % 16 = c.toNat := by omega
                    have hl : escChars (c :: cs) ++ '"' :: rest =
                        '\\' :: 'u' :: '0' :: '0' :: hexDigitCh (c.toNat / 16) ::
                          hexDigitCh (c.toNat % 16) :: (escChars cs ++ '"' :: rest) := by
                      simp [escChars, hesc]
                    rw [hl, parseStringBody_uesc _ _ _ _ _ _ hx hy (by omega), harith,
                      Char.ofNat_toNat, parseStringBody_escChars cs (acc ++ [c]) rest]
                    simp
                  · have hl : escChars (c :: cs) ++ '"' :: rest =
                        c :: (escChars cs ++ '"' :: rest) := by
                      simp [escChars, escChar, hq, hbs, hn, hr, ht, hb, hf, h32]
                    rw [hl, parseStringBody_lit _ _ _ hq hbs h32,
                      parseStringBody_escChars cs (acc ++ [c]) rest]
                    simp

/-! Head-shape lemmas for the serializer. -/

theorem digit_not_jsonws {c : Char} (h : isDigitCh c = true) : isJsonWs c = false := by
  have h1 : ¬(c = ' ') := digit_ne h ' ' (by decide)
  have h2 : ¬(c = '\t') := digit_ne h '\t' (by decide)
  have h3 : ¬(c = '\n') := digit_ne h '\n' (by decide)
  have h4 : ¬(c = '\r') := digit_ne h '\r' (by decide)
  simp [isJsonWs, h1, h2, h3, h4]

theorem intChars_head (n : Int) :
    ∃ hd tl, intChars n = hd :: tl ∧ isJsonWs hd = false ∧ hd ≠ ']' ∧ hd ≠ lbrace ∧
      hd ≠ '[' ∧ hd ≠ '"' ∧ hd ≠ 't' ∧ hd ≠ 'f' ∧ hd ≠ 'n' ∧ (hd = '-' ∨ isDigitCh hd = true) := by
  by_cases hn : n < 0
  · exact ⟨'-', natToChars n.natAbs n.natAbs, by simp [intChars, if_pos hn], by decide,
      by decide, by decide, by decide, by decide, by decide, by decide, by decide, Or.inl rfl⟩
  · obtain ⟨hd, tl, heq, hdig, _⟩ := natToChars_head n.toNat n.toNat le_rfl
    exact ⟨hd, tl, by simp [intChars, if_neg hn, heq], digit_not_jsonws hdig,
      digit_ne hdig ']' (by decide), digit_ne hdig lbrace (by decide),
      digit_ne hdig '[' (by decide), digit_ne hdig '"' (by decide),
      digit_ne hdig 't' (by decide), digit_ne hdig 'f' (by decide),
      digit_ne hdig 'n' (by decide), Or.inr hdig⟩

theorem serJson_head (d : Json) :
    ∃ hd tl, serJson d = hd :: tl ∧ isJsonWs hd = false ∧ hd ≠ ']' := by
  cases d with
  | null => exact ⟨'n', ['u', 'l', 'l'], by simp [serJson], by decide, by decide⟩
  | bool b =>
    cases b with
    | true => exact ⟨'t', ['r', 'u', 'e'], by simp [serJson], by decide, by decide⟩
    | false => exact ⟨'f', ['a', 'l', 's', 'e'], by simp [serJson], by decide, by decide⟩
  | num n =>
    obtain ⟨hd, tl, heq, hws, hne, _⟩ := intChars_head n
    exact ⟨hd, tl, by simp [serJson, heq], hws, hne⟩
  | str s => exact ⟨'"', escChars s.data ++ ['"'], by simp [serJson], by decide, by decide⟩
  | arr items =>
    cases items with
    | nil => exact ⟨'[', [']'], by simp [serJson], by decide, by decide⟩
    | cons x xs =>
      exact ⟨'[', serJson x ++ serItems xs ++ [']'], by simp [serJson], by decide, by decide⟩
  | obj members =>
    cases members with
    | nil => exact ⟨lbrace, [rbrace], by simp [serJson], by decide, by decide⟩
    | cons m ms =>
      exact ⟨lbrace, serMemberOne m ++ serMembers ms ++ [rbrace], by simp [serJson],
        by decide, by decide⟩

theorem skipWs_cons_not_ws {c : Char} (h : isJsonWs c = false) (l : List Char) :
    skipWs (c :: l) = c :: l := by
  simp [skipWs, List.dropWhile_cons, h]

theorem skipWs_serJson (d : Json) (r : List Char) :
    skipWs (serJson d ++ r) = serJson d ++ r := by
  obtain ⟨hd, tl, heq, hws, _⟩ := serJson_head d
  rw [heq]
  exact skipWs_cons_not_ws hws _

theorem parseValue_cons_ws {f : Nat} (hf : 0 < f) {c : Char} (hc : isJsonWs c = true)
    (l : List Char) : parseValue f (c :: l) = parseValue f l := by
  obtain ⟨f', rfl⟩ : ∃ f', f = f' + 1 := ⟨f - 1, by omega⟩
  have hskip : skipWs (c :: l) = skipWs l := by simp [skipWs, List.dropWhile_cons, hc]
  rw [parseValue, parseValue, hskip]

theorem parseValue_zero (l : List Char) : parseValue 0 l = .error JErr.depthExceeded := by
  rw [parseValue]

theorem parseValue_cons_ws2 (f : Nat) {c : Char} (hc : isJsonWs c = true)
    (l : List Char) : parseValue f (c :: l) = parseValue f l := by
  cases f with
  | zero => rw [parseValue_zero, parseValue_zero]
  | succ f =>
    have hskip : skipWs (c :: l) = skipWs l := by simp [skipWs, List.dropWhile_cons, hc]
    rw [parseValue, parseValue, hskip]

theorem parseItems_cons_ws (f : Nat) (acc : List Json) {c : Char} (hc : isJsonWs c = true)
    (l : List Char) : parseItems f acc (c :: l) = parseItems f acc l := by
  cases f with
  | zero => rw [parseItems, parseItems]
  | succ f => rw [parseItems, parseItems, parseValue_cons_ws2 f hc l]

theorem skipWs_cons_ws {c : Char} (hc : isJsonWs c = true) (l : List Char) :
    skipWs (c :: l) = skipWs l := by
  simp [skipWs, List.dropWhile_cons, hc]

theorem serMemberOne_head (m : String × Json) :
    ∃ tl, serMemberOne m = '"' :: tl := by
  obtain ⟨k, v⟩ := m
  exact ⟨escChars k.data ++ ['"', ':', ' '] ++ serJson v, by simp [serMemberOne]⟩


theorem jsizeList_cons (x : Json) (xs : List Json) :
    jsizeList (x :: xs) = 1 + jsize x + jsizeList xs := by
  simp [jsizeList]

theorem jsizePairs_cons (m : String × Json) (ms : List (String × Json)) :
    jsizePairs (m :: ms) = 1 + jsize m.2 + jsizePairs ms := by
  cases m
  simp [jsizePairs]

theorem jsize_arr (xs : List Json) : jsize (Json.arr xs) = 1 + jsizeList xs := by
  simp [jsize]

theorem jsize_obj (ms : List (String × Json)) : jsize (Json.obj ms) = 1 + jsizePairs ms := by
  simp [jsize]

mutual

theorem parse_serJson : ∀ (d : Json) (fuel : Nat) (rest : List Char),
    jsize d < fuel → (∀ c, rest.head? = some c → isDigitCh c = false) →
    parseValue fuel (serJson d ++ rest) = .ok (d, rest)
  | .null, fuel, rest, hf, _ => by
    obtain ⟨f, rfl⟩ : ∃ f, fuel = f + 1 := ⟨fuel - 1, by omega⟩
    have hl : serJson Json.null ++ rest = 'n' :: 'u' :: 'l' :: 'l' :: rest := by simp [serJson]
    rw [hl, parseValue, skipWs_cons_not_ws (by decide)]
    simp [isPrefList, show ¬('n' = lbrace) from by decide]
  | .bool true, fuel, rest, hf, _ => by
    obtain ⟨f, rfl⟩ : ∃ f, fuel = f + 1 := ⟨fuel - 1, by omega⟩
    have hl : serJson (Json.bool true) ++ rest = 't' :: 'r' :: 'u' :: 'e' :: rest := by
      simp [serJson]
    rw [hl, parseValue, skipWs_cons_not_ws (by decide)]
    simp [isPrefList, show ¬('t' = lbrace) from by decide]
  | .bool false, fuel, rest, hf, _ => by
    obtain ⟨f, rfl⟩ : ∃ f, fuel = f + 1 := ⟨fuel - 1, by omega⟩
    have hl : serJson (Json.bool false) ++ rest = 'f' :: 'a' :: 'l' :: 's' :: 'e' :: rest := by
      simp [serJson]
    rw [hl, parseValue, skipWs_cons_not_ws (by decide)]
    simp [isPrefList, show ¬('f' = lbrace) from by decide]
  | .num n, fuel, rest, hf, hrest => by
    obtain ⟨f, rfl⟩ : ∃ f, fuel = f + 1 := ⟨fuel - 1, by omega⟩
    by_cases hn : n < 0
    · have hm : 1 ≤ n.natAbs := by omega
      have hl : serJson (Json.num n) ++ rest = '-' :: (natToChars n.natAbs n.natAbs ++ rest) := by
        simp [serJson, intChars, if_pos hn]
      rw [hl, parseValue, skipWs_cons_not_ws (by decide)]
      simp [show ¬('-' = lbrace) from by decide]
      rw [parseIntNumber_neg n.natAbs hm rest hrest]
      have he : -(n.natAbs : Int) = n := by omega
      rw [he]
    · have hl : serJson (Json.num n) ++ rest = natToChars n.toNat n.toNat ++ rest := by
        simp [serJson, intChars, if_neg hn]
      obtain ⟨hd, tl, heq, hdig, _⟩ := natToChars_head n.toNat n.toNat le_rfl
      rw [hl, heq, List.cons_append, parseValue, skipWs_cons_not_ws (digit_not_jsonws hdig)]
      simp [digit_ne hdig lbrace (by decide), digit_ne hdig '[' (by decide),
        digit_ne hdig '"' (by decide), digit_ne hdig 't' (by decide),
        digit_ne hdig 'f' (by decide), digit_ne hdig 'n' (by decide), hdig]
      rw [← List.cons_append, ← heq, parseIntNumber_nonneg n.toNat rest hrest]
      have he : ((n.toNat : Nat) : Int) = n := by omega
      rw [he]
  | .str s, fuel, rest, hf, _ => by
    obtain ⟨f, rfl⟩ : ∃ f, fuel = f + 1 := ⟨fuel - 1, by omega⟩
    have hl : serJson (Json.str s) ++ rest = '"' :: (escChars s.data ++ '"' :: rest) := by
      simp [serJson]
    rw [hl, parseValue, skipWs_cons_not_ws (by decide)]
    simp [show ¬('"' = lbrace) from by decide, show ¬('"' = '[') from by decide]
    rw [parseStringBody_escChars s.data [] rest]
    simp
  | .arr [], fuel, rest, hf, _ => by
    obtain ⟨f, rfl⟩ : ∃ f, fuel = f + 1 := ⟨fuel - 1, by omega⟩
    have hl : serJson (Json.arr []) ++ rest = '[' :: ']' :: rest := by simp [serJson]
    rw [hl, parseValue, skipWs_cons_not_ws (by decide)]
    simp only [show ¬(('[' : Char) = lbrace) from by decide, if_neg,
      show (('[' : Char) = '[') = True from by simp, if_true]
    rw [skipWs_cons_not_ws (by decide)]
    simp
  | .arr (x :: xs), fuel, rest, hf, _ => by
    obtain ⟨f, rfl⟩ : ∃ f, fuel = f + 1 := ⟨fuel - 1, by omega⟩
    have hl : serJson (Json.arr (x :: xs)) ++ rest =
        '[' :: (serJson x ++ (serItems xs ++ (']' :: rest))) := by
      simp [serJson]
    rw [hl, parseValue, skipWs_cons_not_ws (by decide)]
    simp [show ¬('[' = lbrace) from by decide]
    rw [skipWs_serJson]
    obtain ⟨hd, tl, heq, hws, hne⟩ := serJson_head x
    rw [heq, List.cons_append]
    simp [hne]
    rw [← List.cons_append, ← heq]
    have hsz : jsizeList (x :: xs) < f := by
      have h1 : jsize (Json.arr (x :: xs)) = 1 + jsizeList (x :: xs) := by simp [jsize]
      omega
    exact parse_serItems x xs f [] rest hsz
  | .obj [], fuel, rest, hf, _ => by
    obtain ⟨f, rfl⟩ : ∃ f, fuel = f + 1 := ⟨fuel - 1, by omega⟩
    have hl : serJson (Json.obj []) ++ rest = lbrace :: rbrace :: rest := by simp [serJson]
    rw [hl, parseValue, skipWs_cons_not_ws (by decide)]
    simp only [show ((lbrace : Char) = lbrace) = True from by simp, if_true]
    rw [skipWs_cons_not_ws (by decide)]
    simp
  | .obj (m :: ms), fuel, rest, hf, _ => by
    obtain ⟨f, rfl⟩ : ∃ f, fuel = f + 1 := ⟨fuel - 1, by omega⟩
    have hl : serJson (Json.obj (m :: ms)) ++ rest =
        lbrace :: (serMemberOne m ++ (serMembers ms ++ (rbrace :: rest))) := by
      simp [serJson]
    rw [hl, parseValue, skipWs_cons_not_ws (by decide)]
    simp only [show ((lbrace : Char) = lbrace) = True from by simp, if_true]
    obtain ⟨mtl, hmtl⟩ := serMemberOne_head m
    rw [hmtl, List.cons_append, skipWs_cons_not_ws (by decide)]
    simp [show ¬('"' = rbrace) from by decide]
    rw [← List.cons_append, ← hmtl]
    have hsz : jsizePairs (m :: ms) < f := by
      have h1 : jsize (Json.obj (m :: ms)) = 1 + jsizePairs (m :: ms) := by
        cases m
        simp [jsize]
      omega
    exact parse_serMembers m ms f [] rest hsz
  termination_by d => jsize d
  decreasing_by
    all_goals try simp only [jsizeList_cons, jsizePairs_cons, jsize_arr, jsize_obj]
    all_goals omega

theorem parse_serItems : ∀ (x : Json) (xs : List Json) (fuel : Nat) (acc : List Json)
    (rest : List Char), jsizeList (x :: xs) < fuel →
    parseItems fuel acc (serJson x ++ (serItems xs ++ (']' :: rest))) =
      .ok (.arr (acc ++ x :: xs), rest)
  | x, [], fuel, acc, rest, hsz => by
    have h1 : jsizeList [x] = 1 + jsize x + jsizeList [] := by simp [jsizeList]
    obtain ⟨f, rfl⟩ : ∃ f, fuel = f + 1 := ⟨fuel - 1, by omega⟩
    rw [parseItems]
    have h0 : serItems ([] : List Json) = [] := by simp [serItems]
    rw [h0, List.nil_append]
    rw [parse_serJson x f (']' :: rest) (by omega)
      (by intro c hc; cases hc; decide)]
    simp [skipWs_cons_not_ws (show isJsonWs ']' = false from by decide),
      show ¬(']' = ',') from by decide]
  | x, y :: ys, fuel, acc, rest, hsz => by
    have h1 : jsizeList (x :: y :: ys) = 1 + jsize x + jsizeList (y :: ys) := by simp [jsizeList]
    have h2 : jsizeList (y :: ys) = 1 + jsize y + jsizeList ys := by simp [jsizeList]
    obtain ⟨f, rfl⟩ : ∃ f, fuel = f + 1 := ⟨fuel - 1, by omega⟩
    rw [parseItems]
    have hirw : serItems (y :: ys) = ',' :: ' ' :: (serJson y ++ serItems ys) := by
      simp [serItems]
    rw [hirw]
    simp only [List.cons_append, List.append_assoc]
    rw [parse_serJson x f _ (by omega) (by intro c hc; cases hc; decide)]
    simp [skipWs_cons_not_ws (show isJsonWs ',' = false from by decide)]
    rw [parseItems_cons_ws f _ (show isJsonWs ' ' = true from by decide)]
    rw [parse_serItems y ys f (acc ++ [x]) rest (by omega)]
    simp
  termination_by x xs => jsizeList (x :: xs)
  decreasing_by
    all_goals try simp only [jsizeList_cons, jsizePairs_cons, jsize_arr, jsize_obj]
    all_goals omega

theorem parse_serMembers : ∀ (m : String × Json) (ms : List (String × Json)) (fuel : Nat)
    (acc : List (String × Json)) (rest : List Char), jsizePairs (m :: ms) < fuel →
    parseMembers fuel acc (serMemberOne m ++ (serMembers ms ++ (rbrace :: rest))) =
      .ok (.obj (acc ++ m :: ms), rest)
  | ⟨k, v⟩, [], fuel, acc, rest, hsz => by
    have h1 : jsizePairs [(k, v)] = 1 + jsize v + jsizePairs [] := by simp [jsizePairs]
    obtain ⟨f, rfl⟩ : ∃ f, fuel = f + 1 := ⟨fuel - 1, by omega⟩
    conv_lhs => rw [parseMembers.eq_def]
    have hm : serMemberOne (k, v) ++ (serMembers ([] : List (String × Json)) ++ (rbrace :: rest)) =
        '"' :: (escChars k.data ++
          ('"' :: ':' :: ' ' :: (serJson v ++ (serMembers ([] : List (String × Json)) ++
            (rbrace :: rest))))) := by
      simp [serMemberOne, List.cons_append, List.append_assoc]
    rw [hm]
    simp only [show (('"' : Char) = '"') = True from by simp, if_true]
    have hstr := parseStringBody_escChars k.data []
      (':' :: ' ' :: (serJson v ++ (serMembers ([] : List (String × Json)) ++ (rbrace :: rest))))
    rw [hstr]
    simp only [List.nil_append]
    rw [skipWs_cons_not_ws (show isJsonWs ':' = false from by decide)]
    simp only [show ((':' : Char) = ':') = True from by simp, if_true]
    rw [parseValue_cons_ws2 f (show isJsonWs ' ' = true from by decide)]
    have hh : ∀ c, (serMembers ([] : List (String × Json)) ++ (rbrace :: rest)).head? = some c →
        isDigitCh c = false := by
      intro c hc
      simp [serMembers] at hc
      subst hc
      decide
    rw [parse_serJson v f _ (by omega) hh]
    have h0 : serMembers ([] : List (String × Json)) = [] := by simp [serMembers]
    rw [h0, List.nil_append]
    simp [skipWs_cons_not_ws (show isJsonWs rbrace = false from by decide),
      show ¬(rbrace = ',') from by decide]
  | ⟨k, v⟩, m2 :: ms2, fuel, acc, rest, hsz => by
    have h1 : jsizePairs ((k, v) :: m2 :: ms2) = 1 + jsize v + jsizePairs (m2 :: ms2) := by
      simp [jsizePairs]
    have h2 : jsizePairs (m2 :: ms2) = 1 + jsize m2.2 + jsizePairs ms2 := by
      cases m2
      simp [jsizePairs]
    obtain ⟨f, rfl⟩ : ∃ f, fuel = f + 1 := ⟨fuel - 1, by omega⟩
    conv_lhs => rw [parseMembers.eq_def]
    have hm : serMemberOne (k, v) ++ (serMembers (m2 :: ms2) ++ (rbrace :: rest)) =
        '"' :: (escChars k.data ++
          ('"' :: ':' :: ' ' :: (serJson v ++ (serMembers (m2 :: ms2) ++ (rbrace :: rest))))) := by
      simp [serMemberOne, List.cons_append, List.append_assoc]
    rw [hm]
    simp only [show (('"' : Char) = '"') = True from by simp, if_true]
    have hstr := parseStringBody_escChars k.data []
      (':' :: ' ' :: (serJson v ++ (serMembers (m2 :: ms2) ++ (rbrace :: rest))))
    rw [hstr]
    simp only [List.nil_append]
    rw [skipWs_cons_not_ws (show isJsonWs ':' = false from by decide)]
    simp only [show ((':' : Char) = ':') = True from by simp, if_true]
    rw [parseValue_cons_ws2 f (show isJsonWs ' ' = true from by decide)]
    have hh : ∀ c, (serMembers (m2 :: ms2) ++ (rbrace :: rest)).head? = some c →
        isDigitCh c = false := by
      intro c hc
      simp [serMembers] at hc
      subst hc
      decide
    rw [parse_serJson v f _ (by omega) hh]
    have hirw : serMembers (m2 :: ms2) = ',' :: ' ' :: (serMemberOne m2 ++ serMembers ms2) := by
      simp [serMembers]
    rw [hirw]
    simp only [List.cons_append, List.append_assoc]
    rw [skipWs_cons_not_ws (show isJsonWs ',' = false from by decide)]
    simp only [show ((',' : Char) = ',') = True from by simp, if_true]
    rw [skipWs_cons_ws (show isJsonWs ' ' = true from by decide)]
    obtain ⟨mtl2, hmtl2⟩ := serMemberOne_head m2
    rw [hmtl2, List.cons_append, skipWs_cons_not_ws (show isJsonWs '"' = false from by decide)]
    rw [← List.cons_append, ← hmtl2]
    rw [parse_serMembers m2 ms2 f (acc ++ [(k, v)]) rest (by omega)]
    simp
  termination_by m ms => jsizePairs (m :: ms)
  decreasing_by
    all_goals try simp only [jsizeList_cons, jsizePairs_cons, jsize_arr, jsize_obj]
    all_goals omega

end

/-! The size measure is dominated by the serialized length, so the fuel
`2·n + 2` of `json_loads` always suffices for a serialized Document. -/

mutual

theorem jsize_le_len : ∀ d : Json, jsize d ≤ (serJson d).length
  | .null => by simp [jsize, serJson]
  | .bool true => by simp [jsize, serJson]
  | .bool false => by simp [jsize, serJson]
  | .num n => by
    obtain ⟨hd, tl, heq, _, _, _⟩ := intChars_head n
    simp [jsize, serJson, heq]
  | .str s => by simp [jsize, serJson]
  | .arr [] => by simp [jsize, serJson, jsizeList]
  | .arr (x :: xs) => by
    have h1 := jsize_le_len x
    have h2 := jsizeList_le_len xs
    simp only [jsize_arr, jsizeList_cons, serJson, List.length_cons, List.length_append]
    omega
  | .obj [] => by simp [jsize, serJson, jsizePairs]
  | .obj (m :: ms) => by
    have h1 := jsizeMember_le m
    have h2 := jsizePairs_le_len ms
    simp only [jsize_obj, jsizePairs_cons, serJson, List.length_cons, List.length_append]
    omega

theorem jsizeList_le_len : ∀ xs : List Json, jsizeList xs ≤ (serItems xs).length
  | [] => by simp [jsizeList, serItems]
  | x :: xs => by
    have h1 := jsize_le_len x
    have h2 := jsizeList_le_len xs
    simp only [jsizeList_cons, serItems, List.length_cons, List.length_append]
    omega

theorem jsizeMember_le : ∀ m : String × Json, 1 + jsize m.2 ≤ (serMemberOne m).length
  | (k, v) => by
    have h1 := jsize_le_len v
    simp only [serMemberOne, List.length_cons, List.length_append]
    omega

theorem jsizePairs_le_len : ∀ ms : List (String × Json), jsizePairs ms ≤ (serMembers ms).length
  | [] => by simp [jsizePairs, serMembers]
  | m :: ms => by
    have h1 := jsizeMember_le m
    have h2 := jsizePairs_le_len ms
    simp only [jsizePairs_cons, serMembers, List.length_cons, List.length_append]
    omega

end

/-- Reading back the standard serialization restores the Document. -/
theorem json_loads_serialize (d : Json) : json_loads (serialize d) = .ok d := by
  have hb : jsize d ≤ (serJson d).length := jsize_le_len d
  have hp := parse_serJson d (2 * (serJson d).length + 2) [] (by omega)
    (by intro c hc; simp at hc)
  rw [List.append_nil] at hp
  unfold json_loads serialize
  have hdata : (String.mk (serJson d)).data = serJson d := rfl
  rw [hdata, hp]
  simp [skipWs]

/-- C3. The spec says the recovery engine is a faithful inverse of
serialization: "for any document d, extract_json_robust(json.dumps(d))
returns d".  False: a document whose string content contains a code
fence is destroyed by the fence-extraction stage.  For
d = \x7b"a": "``` x ```"\x7d the serialized text contains two ``` fences, the
regex stage keeps only the text between them ("x"), every later stage
fails on it, and the engine returns None rather than d. -/
theorem C3_counterexample :
    extract_json_robust (serialize (Json.obj [("a", Json.str "``` x ```")])) ≠
      some (Json.obj [("a", Json.str "``` x ```")]) := by
  have h : extract_json_robust (serialize (Json.obj [("a", Json.str "``` x ```")])) = none := rfl
  rw [h]
  simp

/-- C3 (amended). The round trip does hold for every document whose
serialization is left unchanged by the fence-extraction stage (in
particular, any document none of whose strings contains ```): the direct
parse of stage 2 then succeeds and returns exactly the document. -/
theorem C3_roundtrip_amended (d : Json) (h : fenceStrip (serialize d) = serialize d) :
    extract_json_robust (serialize d) = some d := by
  have hne : serialize d ≠ "" := by
    intro hcon
    have hd2 := congrArg String.data hcon
    obtain ⟨hd, tl, heq, h1, h2⟩ := serJson_head d
    rw [show (serialize d).data = serJson d from rfl, heq] at hd2
    simp at hd2
  simp only [extract_json_robust, if_neg hne, h, json_loads_serialize]

/-- The amended C3 theorem applied to a concrete fence-free document that
exercises commas, closing brackets and braces inside string content. -/
theorem C3_witness :
    extract_json_robust (serialize (Json.obj [("a", Json.str "x , \x7d ] y")])) =
      some (Json.obj [("a", Json.str "x , \x7d ] y")]) :=
  C3_roundtrip_amended (Json.obj [("a", Json.str "x , \x7d ] y")]) (by decide)

/-! ### Batch orchestration (archive/scripts/extract.py `main`) and the
retry pass (archive/scripts/retry_failed.py `main`) -/

/-- Worker outcome for one item as the orchestrator sees it:
`call_gemini` returned its success dict with this raw content, returned
its failed dict after the last error, returned `None` (every attempt
rate-limited, so `process_page` raises `AttributeError` on
`result.get`), or the worker raised some other exception. -/
inductive PipeOutcome where
  | ok (raw : String)
  | apiFailed (e : String)
  | exhausted
  | exceptionRaised (e : String)

/-- Per-item result record as collected by `main` (fields read back with
`.get`, so a key missing from an exception record reads as `None` /
empty). -/
structure PageRec where
  page : Nat
  status : String
  parsed_json : Option Json
  raw_response : String

/-- The record `main` collects for 0-based item `i`: `process_page`'s
return value, or the handler's exception record when the worker raised
(which includes the `ValueError` of an unclosed fence inside
`extract_json_from_response` and the `AttributeError` on a `None` from
`call_gemini`).  `process_page` stores the parse result, marks the item
"success" exactly when that result is truthy, and otherwise demotes an
API success to "json_parse_failed". -/
def itemRecord (i : Nat) : PipeOutcome → PageRec
  | .ok raw =>
    match extract_json_from_response raw with
    | .error _ => ⟨i + 1, "exception", none, ""⟩
    | .ok parsed =>
      if truthyOpt parsed then ⟨i + 1, "success", parsed, raw⟩
      else ⟨i + 1, "json_parse_failed", parsed, raw⟩
  | .apiFailed _ => ⟨i + 1, "failed", none, ""⟩
  | .exhausted => ⟨i + 1, "exception", none, ""⟩
  | .exceptionRaised _ => ⟨i + 1, "exception", none, ""⟩

/-- The summary dict persisted by `main` (its `api_failed` field is the
variable `failed`, counting records whose status differs from
"success"). -/
structure RunSummary where
  total_pages : Nat
  success : Nat
  json_parse_failed : Nat
  api_failed : Nat
  failed_pages : List Nat

def pageLe (a b : PageRec) : Prop := a.page ≤ b.page

instance : DecidableRel pageLe := fun a b => Nat.decLe a.page b.page

instance : IsTotal PageRec pageLe := ⟨fun a b => Nat.le_total a.page b.page⟩

instance : IsTrans PageRec pageLe := ⟨fun _ _ _ h1 h2 => Nat.le_trans h1 h2⟩

def pageLt (a b : PageRec) : Prop := a.page < b.page

instance : IsAntisymm PageRec pageLt := ⟨fun _ _ h1 h2 => absurd h1 (Nat.lt_asymm h2)⟩

/-- `main` of extract.py on the records in worker-completion order:
`results.sort(key=lambda x: x["page"])` (a stable ascending sort,
modelled by insertion sort on the page field) followed by the counters
and the persisted summary.  `success` counts truthy `parsed_json`,
`failed` counts statuses other than "success" and feeds both the
`api_failed` field and the sorted `failed_pages` list. -/
def extract_main (recs : List PageRec) : RunSummary :=
  let results := recs.insertionSort pageLe
  { total_pages := recs.length
    success := (results.filter (fun r => truthyOpt r.parsed_json)).length
    json_parse_failed := (results.filter (fun r => r.status == "json_parse_failed")).length
    api_failed := (results.filter (fun r => !(r.status == "success"))).length
    failed_pages := (results.filter (fun r => !(r.status == "success"))).map (fun r => r.page) }

/-- The records of a run over `N` items with worker outcomes `f`,
collected in completion order `order` (a permutation of `0..N-1`, since
`as_completed` yields every submitted future exactly once). -/
def runRecs (f : Nat → PipeOutcome) (order : List Nat) : List PageRec :=
  order.map (fun i => itemRecord i (f i))

/-- The 0-based items of a run whose record ends up with a status other
than "success", in ascending item order. -/
def failedItems (N : Nat) (f : Nat → PipeOutcome) : List Nat :=
  (List.range N).filter (fun i => !((itemRecord i (f i)).status == "success"))

/-- The pages (1-based) whose persisted file the retry pass's detection
loop opens and reads: every existing file among pages 1..84, failed or
not. -/
def retry_detect_reads (store : Nat → Option PageRec) : List Nat :=
  (List.range 84).filterMap (fun j =>
    if (store (j + 1)).isSome then some (j + 1) else none)

/-- The 0-based list `failed` built by the detection loop of
retry_failed.py `main`: pages 1..84 whose file is missing, or whose
record has a status other than "success" or a falsy `parsed_json`. -/
def retry_failed_items (store : Nat → Option PageRec) : List Nat :=
  (List.range 84).filterMap (fun j =>
    match store (j + 1) with
    | none => some j
    | some d =>
      if !(d.status == "success") || !(truthyOpt d.parsed_json) then some j else none)

/-- The pages (1-based) rewritten by the robust re-parse loop of
retry_failed.py `main`: existing records with falsy `parsed_json` and
truthy `raw_response` for which `extract_json_robust` recovers a truthy
document. -/
def retry_reparse_writes (store : Nat → Option PageRec) : List Nat :=
  (List.range 84).filterMap (fun j =>
    match store (j + 1) with
    | none => none
    | some d =>
      if !(truthyOpt d.parsed_json) && !(d.raw_response == "") then
        if truthyOpt (extract_json_robust d.raw_response) then some (j + 1) else none
      else none)

theorem itemRecord_page (i : Nat) (o : PipeOutcome) : (itemRecord i o).page = i + 1 := by
  cases o with
  | ok raw =>
    simp only [itemRecord]
    split
    · rfl
    · split <;> rfl
  | apiFailed e => rfl
  | exhausted => rfl
  | exceptionRaised e => rfl

theorem itemRecord_success (i : Nat) (o : PipeOutcome) :
    ((itemRecord i o).status == "success") = truthyOpt (itemRecord i o).parsed_json := by
  cases o with
  | ok raw =>
    simp only [itemRecord]
    split
    · rfl
    · rename_i parsed heq
      cases hb : truthyOpt parsed with
      | false => simp [hb]
      | true => simp [hb]
  | apiFailed e => rfl
  | exhausted => rfl
  | exceptionRaised e => rfl

theorem length_filter_not_add (p : PageRec → Bool) (l : List PageRec) :
    (l.filter p).length + (l.filter (fun a => !(p a))).length = l.length := by
  induction l with
  | nil => rfl
  | cons x xs ih => cases h : p x <;> simp [List.filter_cons, h] <;> omega

/-- C6. The spec promises that a retry pass over the failed items "never
re-touches" the items outside the failed set.  False for reads: the
detection loop of retry_failed.py `main` opens and reads the persisted
file of every existing page 1..84 before deciding which failed.  With a
store in which only page 2 failed, the failed list is exactly page 2
(0-based item 1), yet page 1 is among the pages the detection loop
reads. -/
theorem C6_counterexample :
    (retry_failed_items (fun p =>
        if p = 2 then some ⟨2, "failed", none, ""⟩
        else if p ≤ 84 then some ⟨p, "success", some (Json.num 1), ""⟩ else none)).map
        (fun j => j + 1) = [2] ∧
    1 ∈ retry_detect_reads (fun p =>
        if p = 2 then some ⟨2, "failed", none, ""⟩
        else if p ≤ 84 then some ⟨p, "success", some (Json.num 1), ""⟩ else none) ∧
    1 ∉ ([2] : List Nat) := by
  refine ⟨by decide, by decide, by decide⟩

/-- C6 (amended). For a run over `N` items with outcomes `f` collected
in any completion order: the summary's `total_pages` is `N`, `success`
is `N` minus the number of failed items, the `failed` counter
(persisted as `api_failed`) is the number of failed items, and
`failed_pages` lists exactly the failed items' page numbers in
ascending order.  The retry pass rewrites persisted records only for
failed items (its re-parse loop writes a page only when the record's
`parsed_json` is falsy, which puts the page in the failed list) — but,
unlike the spec's claim, its detection loop reads every existing record
(see the counterexample). -/
theorem C6_run_and_retry_amended (N : Nat) (f : Nat → PipeOutcome) (order : List Nat)
    (hperm : List.Perm order (List.range N)) (store : Nat → Option PageRec) :
    (extract_main (runRecs f order)).total_pages = N ∧
    (extract_main (runRecs f order)).success = N - (failedItems N f).length ∧
    (extract_main (runRecs f order)).api_failed = (failedItems N f).length ∧
    (extract_main (runRecs f order)).failed_pages = (failedItems N f).map (fun i => i + 1) ∧
    (∀ p, p ∈ retry_reparse_writes store →
      p ∈ (retry_failed_items store).map (fun j => j + 1)) := by
  have hlen : order.length = N := hperm.length_eq.trans (List.length_range N)
  have hperm2 : List.Perm ((runRecs f order).insertionSort pageLe)
      (runRecs f (List.range N)) :=
    (List.perm_insertionSort pageLe (runRecs f order)).trans
      (hperm.map (fun i => itemRecord i (f i)))
  have hpagesC : (runRecs f (List.range N)).map (fun r => r.page)
      = (List.range N).map (fun i => i + 1) := by
    unfold runRecs
    rw [List.map_map]
    exact List.map_congr_left (fun i _ => itemRecord_page i (f i))
  have hnodC : ((runRecs f (List.range N)).map (fun r => r.page)).Nodup := by
    rw [hpagesC]
    exact (List.nodup_range N).map (fun a b h => by omega)
  have hnodS : (((runRecs f order).insertionSort pageLe).map (fun r => r.page)).Nodup :=
    ((hperm2.map (fun r => r.page)).nodup_iff).mpr hnodC
  have hle : List.Sorted pageLe ((runRecs f order).insertionSort pageLe) :=
    List.sorted_insertionSort pageLe (runRecs f order)
  have hlt1 : List.Sorted pageLt ((runRecs f order).insertionSort pageLe) :=
    (hle.and (List.pairwise_map.mp hnodS)).imp
      (fun h => Nat.lt_of_le_of_ne h.1 h.2)
  have hlt2 : List.Sorted pageLt (runRecs f (List.range N)) := by
    unfold runRecs
    apply List.pairwise_map.mpr
    apply (List.pairwise_lt_range N).imp
    intro a b hab
    show (itemRecord a (f a)).page < (itemRecord b (f b)).page
    rw [itemRecord_page, itemRecord_page]
    omega
  have hsortEq : (runRecs f order).insertionSort pageLe = runRecs f (List.range N) :=
    List.eq_of_perm_of_sorted hperm2 hlt1 hlt2
  have hfailLen : ((runRecs f (List.range N)).filter
      (fun r => !(r.status == "success"))).length = (failedItems N f).length := by
    unfold runRecs failedItems
    rw [List.filter_map, List.length_map]
    rfl
  have hcanonLen : (runRecs f (List.range N)).length = N := by
    unfold runRecs
    rw [List.length_map, List.length_range]
  have hfields :
      (extract_main (runRecs f order)).total_pages = (runRecs f order).length ∧
      (extract_main (runRecs f order)).success
        = (((runRecs f order).insertionSort pageLe).filter
            (fun r => truthyOpt r.parsed_json)).length ∧
      (extract_main (runRecs f order)).api_failed
        = (((runRecs f order).insertionSort pageLe).filter
            (fun r => !(r.status == "success"))).length ∧
      (extract_main (runRecs f order)).failed_pages
        = (((runRecs f order).insertionSort pageLe).filter
            (fun r => !(r.status == "success"))).map (fun r => r.page) :=
    ⟨rfl, rfl, rfl, rfl⟩
  refine ⟨?_, ?_, ?_, ?_, ?_⟩
  · rw [hfields.1]
    unfold runRecs
    rw [List.length_map]
    exact hlen
  · rw [hfields.2.1, hsortEq]
    have hcongr : ∀ r ∈ runRecs f (List.range N),
        (truthyOpt r.parsed_json) = !(!(r.status == "success")) := by
      intro r hr
      obtain ⟨i, hi, rfl⟩ := List.mem_map.mp hr
      rw [Bool.not_not]
      exact (itemRecord_success i (f i)).symm
    rw [List.filter_congr hcongr]
    have hadd := length_filter_not_add (fun r => !(r.status == "success"))
      (runRecs f (List.range N))
    simp only [] at hadd
    omega
  · rw [hfields.2.2.1, hsortEq]
    exact hfailLen
  · rw [hfields.2.2.2, hsortEq]
    unfold runRecs failedItems
    rw [List.filter_map, List.map_map]
    exact List.map_congr_left (fun i _ => itemRecord_page i (f i))
  · intro p hp
    unfold retry_reparse_writes at hp
    obtain ⟨j, hj, hcase⟩ := List.mem_filterMap.mp hp
    rcases hs : store (j + 1) with _ | d
    · simp only [hs] at hcase
      exact Option.noConfusion hcase
    · simp only [hs] at hcase
      by_cases hb : (!(truthyOpt d.parsed_json) && !(d.raw_response == "")) = true
      · rw [if_pos hb] at hcase
        by_cases hb2 : truthyOpt (extract_json_robust d.raw_response) = true
        · rw [if_pos hb2] at hcase
          have hpj : p = j + 1 := (Option.some.inj hcase).symm
          subst hpj
          refine List.mem_map.mpr ⟨j, List.mem_filterMap.mpr ⟨j, hj, ?_⟩, rfl⟩
          rw [hs]
          show (if (!(d.status == "success") || !(truthyOpt d.parsed_json)) = true
            then some j else none) = some j
          rw [if_pos]
          rw [Bool.or_eq_true]
          right
          simp only [Bool.and_eq_true] at hb
          exact hb.1
        · rw [if_neg hb2] at hcase
          simp at hcase
      · rw [if_neg hb] at hcase
        simp at hcase

/-- Outcomes of the five-item witness run: 0-based items 1 and 3 fail
(an API failure and an unparseable response), the rest return a raw
response that parses. -/
def c6WitnessOutcomes (i : Nat) : PipeOutcome :=
  if i = 1 then PipeOutcome.apiFailed "boom"
  else if i = 3 then PipeOutcome.ok "zzz"
  else PipeOutcome.ok "\x7b\"n\": 1\x7d"

/-- The amended C6 theorem applied to a five-item run with items
\x7b2, 4\x7d (1-based) failing, collected in a scrambled completion
order. -/
theorem C6_witness :
    List.Perm [3, 0, 4, 2, 1] (List.range 5) ∧
    ((extract_main (runRecs c6WitnessOutcomes [3, 0, 4, 2, 1])).total_pages = 5 ∧
      (extract_main (runRecs c6WitnessOutcomes [3, 0, 4, 2, 1])).success
        = 5 - (failedItems 5 c6WitnessOutcomes).length ∧
      (extract_main (runRecs c6WitnessOutcomes [3, 0, 4, 2, 1])).api_failed
        = (failedItems 5 c6WitnessOutcomes).length ∧
      (extract_main (runRecs c6WitnessOutcomes [3, 0, 4, 2, 1])).failed_pages
        = (failedItems 5 c6WitnessOutcomes).map (fun i => i + 1) ∧
      (∀ p, p ∈ retry_reparse_writes (fun _ => none) →
        p ∈ (retry_failed_items (fun _ => none)).map (fun j => j + 1))) :=
  ⟨by decide, C6_run_and_retry_amended 5 c6WitnessOutcomes [3, 0, 4, 2, 1] (by decide)
    (fun _ => none)⟩

/-! ### The model-call retry loops (extract.py `call_gemini`,
retry_failed.py `process_page`) -/

/-- What one HTTP attempt does: a 429 rate-limit response, some other
exception (connection error, non-2xx raised by `raise_for_status`,
malformed body), or a usable response with the given content and
thinking text. -/
inductive AttemptOutcome where
  | rateLimited
  | errored (e : String)
  | succeeded (content thinking : String)

/-- The dict `call_gemini` returns (only the fields that distinguish
its success dict from its failed dict). -/
structure CallDict where
  raw_response : String
  thinking : String
  error : Option String
  status : String

/-- The `for attempt in range(3)` loop of extract.py `call_gemini`,
instrumented with the list of `time.sleep` waits (in seconds, in order)
and the number of HTTP attempts made.  A 429 sleeps `2**(attempt+1)+5`
and continues; any other exception sleeps `2**(attempt+1)` and retries
while `attempt < 2`, else returns the failed dict; success returns the
success dict.  Falling off the loop (every attempt rate-limited)
returns Python's implicit `None`, modelled as `none`. -/
def call_gemini_go (resp : Nat → AttemptOutcome) :
    Nat → Nat → List Nat → Nat → Option CallDict × List Nat × Nat
  | 0, _, waits, calls => (none, waits.reverse, calls)
  | fuel + 1, attempt, waits, calls =>
    match resp attempt with
    | .rateLimited =>
      call_gemini_go resp fuel (attempt + 1) ((2 ^ (attempt + 1) + 5) :: waits) (calls + 1)
    | .succeeded c t => (some ⟨c, t, none, "success"⟩, waits.reverse, calls + 1)
    | .errored e =>
      if attempt < 2 then
        call_gemini_go resp fuel (attempt + 1) ((2 ^ (attempt + 1)) :: waits) (calls + 1)
      else (some ⟨"", "", some e, "failed"⟩, waits.reverse, calls + 1)

/-- `call_gemini` with the attempt outcomes given by `resp`: the
returned value, the sleep schedule, and the number of HTTP attempts. -/
def call_gemini (resp : Nat → AttemptOutcome) : Option CallDict × List Nat × Nat :=
  call_gemini_go resp 3 0 [] 0

/-- The sleep schedule of the retry loop in retry_failed.py
`process_page`: a 429 sleeps `5 * (attempt + 1)` (linear, not
exponential) and continues; any other exception sleeps a constant 3;
a response whose JSON parses returns, otherwise the loop continues
without sleeping. -/
def retry_process_waits (resp : Nat → AttemptOutcome) : Nat → Nat → List Nat → List Nat
  | 0, _, waits => waits.reverse
  | fuel + 1, attempt, waits =>
    match resp attempt with
    | .rateLimited => retry_process_waits resp fuel (attempt + 1) ((5 * (attempt + 1)) :: waits)
    | .errored _ => retry_process_waits resp fuel (attempt + 1) (3 :: waits)
    | .succeeded _ _ => waits.reverse

def retry_page_waits (resp : Nat → AttemptOutcome) : List Nat :=
  retry_process_waits resp 3 0 []

theorem call_gemini_go_calls_le (resp : Nat → AttemptOutcome) :
    ∀ (fuel attempt calls : Nat) (waits : List Nat),
      (call_gemini_go resp fuel attempt waits calls).2.2 ≤ calls + fuel
  | 0, _, _, _ => Nat.le_refl _
  | fuel + 1, attempt, calls, waits => by
    cases h : resp attempt with
    | rateLimited =>
      simp only [call_gemini_go, h]
      have := call_gemini_go_calls_le resp fuel (attempt + 1)
        (calls + 1) ((2 ^ (attempt + 1) + 5) :: waits)
      omega
    | succeeded c t =>
      simp only [call_gemini_go, h]
      show calls + 1 ≤ calls + (fuel + 1)
      omega
    | errored e =>
      simp only [call_gemini_go, h]
      by_cases h2 : attempt < 2
      · rw [if_pos h2]
        have := call_gemini_go_calls_le resp fuel (attempt + 1)
          (calls + 1) ((2 ^ (attempt + 1)) :: waits)
        omega
      · rw [if_neg h2]
        show calls + 1 ≤ calls + (fuel + 1)
        omega

/-- C7. The spec says the call helper retries with exponential backoff
and, after the third failure, always surfaces a terminal error to the
caller as a failed result value, never as an absent result.  False:
when every attempt is rate-limited, extract.py's `call_gemini` performs
its three attempts with waits of 7, 9 and 13 seconds (2^(a+1)+5 — not
an exponential schedule) and then falls off the loop, returning `None`
rather than any failed dict; and retry_failed.py's `process_page` waits
5·(a+1) = 5, 10, 15 seconds on the same outcomes — a linear schedule. -/
theorem C7_counterexample :
    call_gemini (fun _ => AttemptOutcome.rateLimited) = (none, [7, 9, 13], 3) ∧
    retry_page_waits (fun _ => AttemptOutcome.rateLimited) = [5, 10, 15] := by
  exact ⟨rfl, rfl⟩

/-- C7 (amended). The loop of `call_gemini` makes at most 3 HTTP
attempts for any outcome sequence.  When every attempt raises a
non-429 error it sleeps 2 and 4 seconds (exponential backoff) and
returns the failed dict carrying the last error, using all 3 attempts;
a first-attempt success returns the success dict after a single
attempt with no waiting.  But when every attempt is rate-limited the
result is `None` (an absent result, not a failed dict) after waits of
7, 9 and 13 seconds. -/
theorem C7_retry_amended (resp : Nat → AttemptOutcome) (e c t : String) :
    (call_gemini resp).2.2 ≤ 3 ∧
    call_gemini (fun _ => AttemptOutcome.errored e)
      = (some ⟨"", "", some e, "failed"⟩, [2, 4], 3) ∧
    call_gemini (fun _ => AttemptOutcome.succeeded c t)
      = (some ⟨c, t, none, "success"⟩, [], 1) ∧
    call_gemini (fun _ => AttemptOutcome.rateLimited) = (none, [7, 9, 13], 3) := by
  refine ⟨call_gemini_go_calls_le resp 3 0 0 [], rfl, rfl, rfl⟩
